import Mathlib

/-!
Verification development for the Polya blackboard core
(`polya/main/blackboard.py`).

The blackboard stores comparison facts between indexed terms t0, t1, t2, ...
(t0 is the constant 1).  This file shallowly embeds the blackboard state and
the assertion / query engine.  Python dictionaries become association lists,
Python sets become lists with set-style insertion, exact rationals become `ℚ`,
and exceptions become an `Except` result.  The mutually recursive assertion
procedures (`assert_comparison`, `assert_inequality`, `update_clause`, ...)
are embedded as one fuel-indexed step function; running out of fuel is its own
error value, distinct from every behaviour of the Python code.

`polya/main/terms.py` and `polya/util/geometry.py` are not part of the
source tree available here, so the small parts of them that the blackboard
uses (comparison constants, half-planes, comparison ranges, clauses) are
modelled from the spec; each such definition carries a doc comment starting
with `Modelled from the spec:`.
-/

namespace PolyaBB

/-- Modelled from the spec: the comparison constants of `polya.main.terms`
(GT, GE, EQ, LE, LT, NE).  The source treats a comparison as a small integer
constant and has a fallback branch for values outside the six (spec §9's open
question), so the type of comparisons is `ℕ`, with the six named values
below.  The `c` prefix avoids clashing with core Lean order classes. -/
abbrev Comp := ℕ

def cGT : Comp := 0
def cGE : Comp := 1
def cEQ : Comp := 2
def cLE : Comp := 3
def cLT : Comp := 4
def cNE : Comp := 5

/-- Modelled from the spec: `terms.comp_reverse`, swapping the two sides of a
comparison (GT↔LT, GE↔LE, EQ and NE fixed).  Values outside the six are
returned unchanged; the embedding never applies it to such values. -/
def comp_reverse (c : Comp) : Comp :=
  if c = cGT then cLT else if c = cGE then cLE
  else if c = cLT then cGT else if c = cLE then cGE else c

/-- Modelled from the spec: `terms.comp_negate`, logical negation of a
comparison (GT↔LE, GE↔LT, EQ↔NE).  Values outside the six are returned
unchanged. -/
def comp_negate (c : Comp) : Comp :=
  if c = cGT then cLE else if c = cGE then cLT
  else if c = cLT then cGE else if c = cLE then cGT
  else if c = cEQ then cNE else if c = cNE then cEQ else c

/-- Modelled from the spec: `terms.comp_weaken` (strict to non-strict). -/
def comp_weaken (c : Comp) : Comp :=
  if c = cGT then cGE else if c = cLT then cLE else c

/-- Modelled from the spec: `terms.comp_eval`, evaluating `a comp b` on
rationals.  Outside the six comparisons the table has no entry; the embedding
never evaluates it there and returns `false`. -/
def comp_eval (c : Comp) (a b : ℚ) : Bool :=
  if c = cGT then a > b else if c = cGE then a ≥ b
  else if c = cEQ then a = b else if c = cLE then a ≤ b
  else if c = cLT then a < b else if c = cNE then a ≠ b else false

/-- Modelled from the spec: `geometry.Halfplane`.  A half-plane through the
origin of the (x, y) plane, given by a direction vector (a, b) and a
strictness bit.  The orientation convention is the one that
`blackboard.py` itself pins down by the literal half-planes it builds
(lines 625, 655, 886: "y ≥ 0" is `(1, 0)`, "x ≥ 0" is `(0, -1)`): the
half-plane consists of the points on or strictly to the left of the ray
through (a, b), i.e. `{(x, y) : a*y - b*x ≥ 0}` (strict `>` when `strong`).
(The spec's §4.1 sample value `(-1, c)` for LE does not match those lines,
nor the `a/b` coefficient extraction of §4.5, so the source's own
convention is used.) -/
structure Halfplane where
  a : ℚ
  b : ℚ
  strong : Bool
deriving DecidableEq, Repr

/-- Modelled from the spec: `eq_dir` — parallel and same orientation. -/
def Halfplane.eq_dir (h h' : Halfplane) : Bool :=
  h.a * h'.b - h'.a * h.b = 0 ∧ h.a * h'.a + h.b * h'.b > 0

/-- Modelled from the spec: `opp_dir` — parallel and opposite orientation. -/
def Halfplane.opp_dir (h h' : Halfplane) : Bool :=
  h.a * h'.b - h'.a * h.b = 0 ∧ h.a * h'.a + h.b * h'.b < 0

/-- Modelled from the spec: `compare_hp` — the sign of the oriented cross
product of the direction vectors; `h.compare_hp h' > 0` iff `h'` is
counter-clockwise of `h` (within half a turn). -/
def Halfplane.compare_hp (h h' : Halfplane) : Int :=
  let c := h.a * h'.b - h.b * h'.a
  if c > 0 then 1 else if c < 0 then -1 else 0

/-- Modelled from the spec: `halfplane_of_comp comp c` builds the half-plane
equivalent of `x comp c*y`.  Under the orientation convention above,
`x ≤ c*y` is `{c*y - x ≥ 0}`, i.e. direction `(c, 1)`, and `x ≥ c*y` is
direction `(-c, -1)`; strict iff comp is LT resp. GT.  (Consistent with
`blackboard.py` line 623 against line 886: `halfplane_of_comp(GE, 0)` must be
the "x ≥ 0" half-plane `(0, -1)`.)  Comparisons outside the four inequality
constants never reach this function in the source. -/
def halfplane_of_comp (comp : Comp) (c : ℚ) : Halfplane :=
  if comp = cGE ∨ comp = cGT then ⟨-c, -1, comp = cGT⟩
  else ⟨c, 1, comp = cLT⟩

/-- Modelled from the spec: `halfplane_flip` swaps the roles of x and y.
Under the left-of-the-ray convention, swapping coordinates in
`{a*y - b*x ≥ 0}` gives `{a*x - b*y ≥ 0} = {(-b)*y - (-a)*x ≥ 0}`. -/
def halfplane_flip (h : Halfplane) : Halfplane :=
  ⟨-h.b, -h.a, h.strong⟩

/-- Modelled from the spec: `to_comp` reconstructs the comparison
`t_i comp coeff * t_j` from a half-plane over the (t_i, t_j) plane; returned
as the pair (comp, coeff).  `a*y - b*x ≥ 0` with `b > 0` is `x ≤ (a/b)*y`,
with `b < 0` it is `x ≥ (a/b)*y`.  With `b = 0` the half-plane constrains
only t_j; the blackboard only consults the (comp, coeff) of such a
half-plane in `assert_disequality`, where its zero coefficient can never
match the nonzero disequality coefficient. -/
def Halfplane.to_comp (h : Halfplane) : Comp × ℚ :=
  if h.b > 0 then ((if h.strong then cLT else cLE), h.a / h.b)
  else if h.b < 0 then ((if h.strong then cGT else cGE), h.a / h.b)
  else ((if h.a > 0 then (if h.strong then cGT else cGE)
         else (if h.strong then cLT else cLE)), 0)

/-- Modelled from the spec: `geometry.Extended` — rationals with ±∞. -/
inductive Extended where
  | neg_infty : Extended
  | val : ℚ → Extended
  | infty : Extended
deriving DecidableEq, Repr

/-- Order on extended rationals. -/
def Extended.le : Extended → Extended → Bool
  | .neg_infty, _ => true
  | _, .infty => true
  | .val a, .val b => a ≤ b
  | .infty, _ => false
  | _, .neg_infty => false

/-- Modelled from the spec: multiplying an extended rational by a nonzero
rational scalar (flipping infinities when the scalar is negative).  The
source never scales by zero; that case is given the finite value 0. -/
def Extended.mul (k : ℚ) : Extended → Extended
  | .val q => .val (k * q)
  | .infty => if k > 0 then .infty else if k < 0 then .neg_infty else .val 0
  | .neg_infty => if k > 0 then .neg_infty else if k < 0 then .infty else .val 0

/-- Modelled from the spec: `geometry.ComparisonRange` — the set of
coefficients c for which a parametric comparison holds, as a closed interval
[lower, upper] of extended rationals plus three strictness bits
(`lower_strict`: the comparison holds strictly at the lower endpoint,
`interior_strong`: strictly in the interior, `upper_strict`: strictly at the
upper endpoint). -/
structure ComparisonRange where
  lower : Extended
  upper : Extended
  lower_strict : Bool
  interior_strong : Bool
  upper_strict : Bool
deriving DecidableEq, Repr

/-- Membership of a rational coefficient in a comparison range. -/
def ComparisonRange.mem (r : ComparisonRange) (c : ℚ) : Bool :=
  r.lower.le (.val c) && (Extended.val c).le r.upper

/-- Modelled from the spec: `geometry.empty_range`, the distinguished empty
comparison range (no rational lies between +∞ and −∞). -/
def empty_range : ComparisonRange :=
  ⟨.infty, .neg_infty, false, false, false⟩

/-- Modelled from the spec: `ComparisonRange.scale k` multiplies the
endpoints by k, flipping the interval and swapping the endpoint strictness
bits when k < 0. -/
def ComparisonRange.scale (r : ComparisonRange) (k : ℚ) : ComparisonRange :=
  if k ≥ 0 then
    ⟨r.lower.mul k, r.upper.mul k, r.lower_strict, r.interior_strong, r.upper_strict⟩
  else
    ⟨r.upper.mul k, r.lower.mul k, r.upper_strict, r.interior_strong, r.lower_strict⟩

/-- Modelled from the spec: `geometry.add_halfplane_comparison` folds one
more half-plane into a list of at most two half-planes kept in clockwise
order, using the same rules as the pair-table updates of
`assert_zero_inequality` (blackboard.py lines 628-650): an equidirectional
entry absorbs the new half-plane (strengthening it when the new one is
strict), otherwise the new half-plane is inserted in rotational order,
replacing a boundary when it is outside both. -/
def add_halfplane_comparison (new : Halfplane) (l : List Halfplane) : List Halfplane :=
  if l.any (fun h => h.eq_dir new) then
    l.map (fun h => if h.eq_dir new && !h.strong && new.strong then ⟨h.a, h.b, true⟩ else h)
  else
    match l with
    | [] => [new]
    | [h] => if h.compare_hp new > 0 then [new, h] else [h, new]
    | h1 :: h2 :: _ =>
      if h1.compare_hp new > 0 ∧ h2.compare_hp new > 0 then [new, h2]
      else if h1.compare_hp new < 0 ∧ h2.compare_hp new < 0 then [h1, new]
      else [h1, h2]

/-- A literal `t_i comp coeff * t_j` (with `coeff = 0, j = 0` for
comparisons with zero), the canonized quadruple form used throughout the
blackboard. -/
abbrev TC := ℕ × Comp × ℚ × ℕ

/-- Modelled from the spec: `terms.Clause` — a disjunction of literal
comparisons together with its satisfied flag; updating a clause against the
blackboard marks it satisfied when some literal is known true and removes the
literals whose negations are known. -/
structure Clause where
  literals : List TC
  satisfied : Bool
deriving DecidableEq, Repr

/-- `len(c)` of a clause is its number of remaining literals. -/
def Clause.size (c : Clause) : ℕ := c.literals.length

/-- `c.first()`: the first remaining literal (only consulted on unit
clauses; the default is never used by the embedding). -/
def Clause.first (c : Clause) : TC := c.literals.headD (0, cEQ, 0, 0)

/-- A tracker key: either a term index (zero fact) or a pair (pair fact). -/
abbrev UKey := ℕ ⊕ (ℕ × ℕ)

/-- Python dictionaries are embedded as association lists; lookup returns the
value at the first matching key. -/
def alookup {κ α : Type} [DecidableEq κ] (l : List (κ × α)) (k : κ) : Option α :=
  (l.find? (fun e => e.1 = k)).map (·.2)

/-- `d[k] = v`: replace the (first) entry for `k`, or append a new one. -/
def aset {κ α : Type} [DecidableEq κ] : List (κ × α) → κ → α → List (κ × α)
  | [], k, v => [(k, v)]
  | e :: t, k, v => if e.1 = k then (k, v) :: t else e :: aset t k v

/-- `del d[k]` / `d.pop(k)`: remove the entry for `k`. -/
def aremove {κ α : Type} [DecidableEq κ] (l : List (κ × α)) (k : κ) :
    List (κ × α) :=
  l.filter (fun e => ¬ e.1 = k)

/-- Python set insertion on a list kept without duplicates. -/
def sinsert {α : Type} [DecidableEq α] (l : List α) (x : α) : List α :=
  if x ∈ l then l else l ++ [x]

/-- Python set removal. -/
def sremove {α : Type} [DecidableEq α] (l : List α) (x : α) : List α :=
  l.filter (fun y => ¬ y = x)

/-- The blackboard state (`Blackboard.__init__`, blackboard.py lines
99-119).  The term registry is represented by `num_terms` alone: term
definitions play no role in the comparison tables, and the domain of the
`self.terms` dictionary (consulted by `raise_contradiction` when formatting
its message) is exactly `{0, ..., num_terms - 1}`.  The tracker's
`updates` dictionary lives in the same structure. -/
structure Blackboard where
  num_terms : ℕ
  /-- `(i, j) ↦ [h1, h2]`, at most two half-planes, h2 clockwise of h1. -/
  inequalities : List ((ℕ × ℕ) × List Halfplane)
  /-- `i ↦ comp` for facts `t_i comp 0`. -/
  zero_inequalities : List (ℕ × Comp)
  /-- `(i, j) ↦ c` for facts `t_i = c * t_j`. -/
  equalities : List ((ℕ × ℕ) × ℚ)
  /-- indices known equal to 0. -/
  zero_equalities : List ℕ
  /-- `(i, j) ↦ {c, ...}` for facts `t_i ≠ c * t_j`. -/
  disequalities : List ((ℕ × ℕ) × List ℚ)
  /-- indices known different from 0. -/
  zero_disequalities : List ℕ
  clauses : List Clause
  /-- `Tracker.updates`: per-subscriber pending key sets. -/
  updates : List (ℕ × List UKey)
deriving DecidableEq, Repr

/-- `Tracker.update(key)` (blackboard.py lines 92-94): add the key to every
subscriber's pending set. -/
def tracker_update (bb : Blackboard) (k : UKey) : Blackboard :=
  { bb with updates := bb.updates.map (fun e => (e.1, sinsert e.2 k)) }

/-- `Tracker.has_new_info` (lines 70-74). -/
def has_new_info (bb : Blackboard) (m : ℕ) : Bool :=
  match alookup bb.updates m with
  | some s => s.length > 0
  | none => true

/-- `Tracker.get_new_info` (lines 76-86): drain the pending set, or on the
first read bootstrap with every key currently present in the comparison
tables. -/
def get_new_info (bb : Blackboard) (m : ℕ) : List UKey × Blackboard :=
  match alookup bb.updates m with
  | some s => (s, { bb with updates := aset bb.updates m [] })
  | none =>
    let s : List UKey :=
      bb.inequalities.map (fun e => .inr e.1)
      ++ bb.disequalities.map (fun e => .inr e.1)
      ++ bb.equalities.map (fun e => .inr e.1)
      ++ bb.zero_inequalities.map (fun e => .inl e.1)
      ++ (bb.zero_equalities.map .inl ++ bb.zero_disequalities.map .inl)
    (s, { bb with updates := aset bb.updates m [] })

/-- `Blackboard.sign` (lines 814-824): 1 if t_i > 0 is known, -1 if
t_i < 0 is known, 0 otherwise. -/
def sign (bb : Blackboard) (i : ℕ) : ℚ :=
  match alookup bb.zero_inequalities i with
  | some comp => if comp = cGT then 1 else if comp = cLT then -1 else 0
  | none => 0

/-- `Blackboard.weak_sign` (lines 826-836). -/
def weak_sign (bb : Blackboard) (i : ℕ) : ℚ :=
  match alookup bb.zero_inequalities i with
  | some comp =>
    if comp = cGT ∨ comp = cGE then 1
    else if comp = cLT ∨ comp = cLE then -1 else 0
  | none => 0

/-- `implies_zero_comparison(i, comp)` (lines 375-402): is `t_i comp 0`
known?  Mirrors the Python branch structure, including the
`.get(i, terms.EQ)` defaults. -/
def implies_zero_comparison (bb : Blackboard) (i : ℕ) (comp : Comp) : Bool :=
  if i ∈ bb.zero_equalities then comp = cLE ∨ comp = cGE ∨ comp = cEQ
  else if comp = cLT ∨ comp = cGT then
    (alookup bb.zero_inequalities i).getD cEQ = comp
  else if comp = cLE then
    (let z := (alookup bb.zero_inequalities i).getD cEQ; z = cLE ∨ z = cLT)
    || decide (i ∈ bb.zero_equalities)
  else if comp = cGE then
    (let z := (alookup bb.zero_inequalities i).getD cEQ; z = cGE ∨ z = cGT)
    || decide (i ∈ bb.zero_equalities)
  else if comp = cEQ then decide (i ∈ bb.zero_equalities)
  else if comp = cNE then
    decide (i ∈ bb.zero_disequalities)
    || (let z := alookup bb.zero_inequalities i; z = some cLT ∨ z = some cGT)
  else false

/-- A clause updated against the blackboard — the evaluation of literals
shared by `Clause.update` and the has-clause check, parameterized by the
literal query so that it can be reused before `implies` is defined. -/
def clause_update_with (impl : TC → Bool) (c : Clause) : Clause :=
  { literals := c.literals.filter (fun l => !impl (l.1, comp_negate l.2.1, l.2.2)),
    satisfied := c.satisfied || c.literals.any impl }

/-- `has_clause(IVar(i) != 0, IVar(j) != 0)` (lines 420-430), the only form
in which the source calls `has_clause` (line 346): build the two-literal
clause, update it against the blackboard, and test membership in the clause
set.  Both literals have coefficient 0, so their evaluation is exactly
`implies_zero_comparison`. -/
def has_clause_ne (bb : Blackboard) (i j : ℕ) : Bool :=
  let impl : TC → Bool := fun l => implies_zero_comparison bb l.1 l.2.1
  let c := clause_update_with impl ⟨[(i, cNE, 0, 0), (j, cNE, 0, 0)], false⟩
  decide (c ∈ bb.clauses)

/-- `Blackboard.implies(i, comp, coeff, j)` (lines 278-373), with an
explicit recursion bound.  The source recursion is: an NE query with nonzero
coefficient asks the two strict inequalities (line 373), and a strict
inequality query asks its weak version (line 343); weak queries do not
recurse.  So along the six comparison constants the recursion depth is at
most 2, and `implies` below runs this function with fuel 3, which is never
exhausted.  A Python fall-through (a comparison outside the six) returns
`None`, i.e. `false`. -/
def impliesF : ℕ → Blackboard → ℕ → Comp → ℚ → ℕ → Bool
  | 0, _, _, _, _, _ => false
  | fuel + 1, bb, i, comp, coeff, j =>
    if coeff = 0 then implies_zero_comparison bb i comp
    else if i = j then
      -- lines 286-295
      let coeff1 : ℚ := 1 - coeff
      if coeff1 > 0 then implies_zero_comparison bb i comp
      else if coeff1 < 0 then implies_zero_comparison bb i (comp_reverse comp)
      else decide (comp = cGE ∨ comp = cLE ∨ comp = cEQ)
    else if comp = cLT ∨ comp = cLE ∨ comp = cGE ∨ comp = cGT then
      if j ∈ bb.zero_equalities then
        -- lines 299-307
        if i ∈ bb.zero_equalities then decide (comp = cLE ∨ comp = cGE)
        else match alookup bb.zero_inequalities i with
          | none => false
          | some comp1 =>
            decide (comp1 = comp ∨ (comp1 = cGT ∧ comp = cGE)
              ∨ (comp1 = cLT ∧ comp = cLE))
      else if i ∈ bb.zero_equalities then
        -- lines 309-318
        match alookup bb.zero_inequalities j with
        | none => false
        | some z =>
          let comp1 := comp_reverse z
          let comp1 := if coeff < 0 then comp_reverse comp1 else comp1
          decide (comp1 = comp ∨ (comp1 = cGT ∧ comp = cGE)
            ∨ (comp1 = cLT ∧ comp = cLE))
      else match alookup bb.equalities (i, j) with
        | some e_coeff =>
          -- lines 320-326
          if coeff = e_coeff then decide (comp = cLE ∨ comp = cGE)
          else
            let pts : List (ℚ × ℚ) := [(e_coeff, 1), (-e_coeff, -1)]
            let pts := pts.filter
              (fun p => p.1 * sign bb i ≥ 0 ∧ p.2 * sign bb j ≥ 0)
            pts.all (fun p => comp_eval comp p.1 (coeff * p.2))
        | none =>
          -- lines 331-362
          let new_comp := halfplane_of_comp comp coeff
          let old_comps := (alookup bb.inequalities (i, j)).getD []
          match old_comps.find? (fun c => c.eq_dir new_comp) with
          | some c => c.strong || !new_comp.strong
          | none =>
            let rest : Bool :=
              if old_comps.length < 2 then false
              else if old_comps.all (fun o => !o.strong) && new_comp.strong then
                false
              else match old_comps with
                | o0 :: o1 :: _ =>
                  decide (new_comp.compare_hp o0 > 0 ∧ o1.compare_hp new_comp > 0)
                | _ => false
            if new_comp.strong then
              let n_comp := if comp = cGT then cGE else cLE
              if impliesF fuel bb i n_comp coeff j
                  && !implies_zero_comparison bb i cNE
                  && !implies_zero_comparison bb j cNE
                  && !has_clause_ne bb i j then
                false
              else rest
            else rest
    else if comp = cEQ then
      -- line 366
      alookup bb.equalities (i, j) = some coeff
    else if comp = cNE then
      -- lines 370-373
      if coeff ∈ (alookup bb.disequalities (i, j)).getD [] then true
      else impliesF fuel bb i cGT coeff j || impliesF fuel bb i cLT coeff j
    else false

/-- `Blackboard.implies`; fuel 3 always suffices (see `impliesF`). -/
def implies (bb : Blackboard) (i : ℕ) (comp : Comp) (coeff : ℚ) (j : ℕ) : Bool :=
  impliesF 3 bb i comp coeff j

/-- `Clause.update` against a blackboard, evaluating each literal with the
full `implies` query. -/
def clause_update (bb : Blackboard) (c : Clause) : Clause :=
  clause_update_with (fun l => implies bb l.1 l.2.1 l.2.2.1 l.2.2.2) c

/-- `TermComparison.canonize` restricted to comparisons between indexed
terms, modelled from the spec (§4.4): after canonization the fact has the
shape `t_i comp c * t_j` with i ≤ j, or `t_i comp 0` (represented with
`coeff = 0, j = 0`, as `assert_comparison` lines 440-441 do).  Reordering
divides by the coefficient: for `c > 0` the comparison is reversed, for
`c < 0` it is reversed twice. -/
def canonize_comp (tc : TC) : TC :=
  let (i, comp, coeff, j) := tc
  if coeff = 0 then (i, comp, 0, 0)
  else if j < i then
    (j, (if coeff > 0 then comp_reverse comp else comp), 1 / coeff, i)
  else tc

/-- The outcomes of the assertion engine other than a normal return:
`contradiction` is `terms.Contradiction`; `keyError`, `indexError` and
`assertionError` are the built-in Python exceptions raised by slips in the
source (a missing `self.terms` index, the unbound `'...{0!s}'.format()`
argument of line 471, a failed `assert`); `outOfFuel` is an artifact of the
embedding only and corresponds to no behaviour of the source. -/
inductive BBErr where
  | contradiction
  | keyError
  | indexError
  | assertionError
  | outOfFuel
deriving DecidableEq, Repr

/-- `raise_contradiction(i, comp, coeff, j)` (lines 805-812).  Before the
`Contradiction` is raised, the message interpolates `self.terms[i]` and
`self.terms[j]`; the term dictionary has exactly the keys
`0, ..., num_terms - 1`, so an out-of-range index raises `KeyError`
instead. -/
def raise_contradiction (bb : Blackboard) (i j : ℕ) : Except BBErr Blackboard :=
  if i < bb.num_terms ∧ j < bb.num_terms then .error .contradiction
  else .error .keyError

/-- The key of the pair table entry for indices i and j. -/
def pkey (i j : ℕ) : ℕ × ℕ := if i < j then (i, j) else (j, i)

/-- The half-plane representing `t_i comp 0` in the plane of the pair
(i, j) or (j, i) (`assert_zero_inequality` lines 622-626). -/
def zi_new_comp (i : ℕ) (comp : Comp) (j : ℕ) : Halfplane :=
  if i < j then halfplane_of_comp comp 0
  else ⟨(if comp = cGE ∨ comp = cGT then 1 else -1), 0, comp = cLT ∨ comp = cGT⟩

/-- Whether some stored half-plane of the pair absorbs the new one by
strengthening (lines 627-633: equidirectional, weak, with a strict new
half-plane). -/
def zi_strengthens (i : ℕ) (comp : Comp) (bb : Blackboard) (j : ℕ) : Bool :=
  ((alookup bb.inequalities (pkey i j)).getD []).any (fun c =>
    c.eq_dir (zi_new_comp i comp j) && !c.strong && (zi_new_comp i comp j).strong)

/-- The pair entry after the in-place strengthening of lines 628-631. -/
def zi_strengthened (i : ℕ) (comp : Comp) (bb : Blackboard) (j : ℕ) :
    List Halfplane :=
  ((alookup bb.inequalities (pkey i j)).getD []).map (fun c =>
    if c.eq_dir (zi_new_comp i comp j) && !c.strong && (zi_new_comp i comp j).strong
    then ⟨c.a, c.b, true⟩ else c)

/-- The new pair entry in the non-strengthening case (lines 635-650). -/
def zi_new_comps (i : ℕ) (comp : Comp) (bb : Blackboard) (j : ℕ) :
    List Halfplane :=
  match (alookup bb.inequalities (pkey i j)).getD [] with
  | [] => [zi_new_comp i comp j]
  | [o] =>
    if o.compare_hp (zi_new_comp i comp j) > 0 then [zi_new_comp i comp j, o]
    else [o, zi_new_comp i comp j]
  | o0 :: o1 :: _ =>
    if o0.compare_hp (zi_new_comp i comp j) > 0
        ∧ o1.compare_hp (zi_new_comp i comp j) > 0 then
      [zi_new_comp i comp j, o1]
    else if o0.compare_hp (zi_new_comp i comp j) < 0
        ∧ o1.compare_hp (zi_new_comp i comp j) < 0 then
      [o0, zi_new_comp i comp j]
    else (alookup bb.inequalities (pkey i j)).getD []

/-- The zero-inequality queued for j when the updated pair sandwiches the
j-axis and t_j has unknown sign (lines 654-668).  `sign` only reads
`zero_inequalities`, which the fan-out loop never modifies, so it is read
off the loop's entry state. -/
def zi_emit (i : ℕ) (bb : Blackboard) (j : ℕ) (new_comps : List Halfplane) :
    List (ℕ × Comp) :=
  if sign bb j = 0 ∧ new_comps.length = 2 then
    let nc0 := new_comps.headD ⟨0, 0, false⟩
    let nc1 := (new_comps.drop 1).headD ⟨0, 0, false⟩
    let j_g_0 : Halfplane := if i < j then ⟨1, 0, true⟩ else ⟨0, -1, true⟩
    let cw_a := j_g_0.compare_hp nc0
    let cw_b := j_g_0.compare_hp nc1
    let strong := nc0.strong && nc1.strong
    if cw_a > 0 ∧ 0 > cw_b then [(j, if strong then cGT else cGE)]
    else if cw_a < 0 ∧ 0 < cw_b then
      -- lines 664-668: the source appends the strict `t_j < 0` in BOTH
      -- arms of its `if strong: ... else: ...`
      [(j, if strong then cLT else cLT)]
    else []
  else []

/-- One iteration of the fan-out loop of `assert_zero_inequality`
(lines 619-668): fold the half-plane for `t_i comp 0` into the pair table
entry for (i, j) and, when the updated pair of half-planes sandwiches the
j-axis while t_j has unknown sign, queue a zero-inequality on j.  The loop
body touches only the pair table, the tracker, and the queued list, so it is
a pure fold; the strengthening case mutates the entry in place and
`continue`s past the tracker update and the sandwich test. -/
def zi_pair_step (i : ℕ) (comp : Comp) (st : Blackboard × List (ℕ × Comp))
    (j : ℕ) : Blackboard × List (ℕ × Comp) :=
  if zi_strengthens i comp st.1 j then
    ({ st.1 with inequalities := aset st.1.inequalities (pkey i j) (zi_strengthened i comp st.1 j) },
     st.2)
  else
    (tracker_update
      { st.1 with inequalities := aset st.1.inequalities (pkey i j) (zi_new_comps i comp st.1 j) }
      (.inr (pkey i j)),
     st.2 ++ zi_emit i st.1 j (zi_new_comps i comp st.1 j))

/-- The whole fan-out loop of `assert_zero_inequality` (lines 619-668):
fold `zi_pair_step` over every other term index, starting from the state
with the zero fact already stored and an empty emission queue. -/
def zi_fanout (i : ℕ) (comp : Comp) (bb : Blackboard) :
    Blackboard × List (ℕ × Comp) :=
  ((List.range bb.num_terms).filter (fun j => ¬ j = i)).foldl
    (zi_pair_step i comp) (bb, [])

/-- The final table update of `assert_inequality` (lines 583-589): store the
new pair of half-planes and purge the (i, j) disequalities that are now
implied (the entry is popped first; the survivors, if any, are stored
back). -/
def aineq_store (bb : Blackboard) (i j : ℕ) (new_comps : List Halfplane) :
    Blackboard :=
  let bb := { bb with inequalities := aset bb.inequalities (i, j) new_comps }
  match alookup bb.disequalities (i, j) with
  | some diseqs =>
    let bb1 := { bb with disequalities := aremove bb.disequalities (i, j) }
    let n := diseqs.filter (fun k => !implies bb1 i cNE k j)
    if n.length > 0 then
      { bb1 with disequalities := aset bb1.disequalities (i, j) n }
    else bb1
  | none => bb

/-- The operations of the mutually recursive assertion engine: one
constructor per Python method. -/
inductive Op where
  | acomp (tc : TC)
  | aineq (i : ℕ) (comp : Comp) (coeff : ℚ) (j : ℕ)
  | azineq (i : ℕ) (comp : Comp)
  | aeq (i : ℕ) (coeff : ℚ) (j : ℕ)
  | azeq (i : ℕ)
  | adiseq (i : ℕ) (coeff : ℚ) (j : ℕ)
  | azdiseq (i : ℕ)
  | uclause (p : UKey)
  | aclause (lits : List TC)

/-- The assertion engine.  Each arm is the line-by-line embedding of the
corresponding method of `Blackboard`; the Python `messages.announce*` calls
are output only and are omitted.  Recursive calls consume one unit of fuel,
so the function is structurally recursive; `outOfFuel` is never the result
for any fuel larger than the actual recursion depth of the source. -/
def step : ℕ → Op → Blackboard → Except BBErr Blackboard
  | 0, _, _ => .error .outOfFuel
  | fuel + 1, op, bb =>
    match op with
    | .acomp tc =>
      -- assert_comparison, lines 432-471.  The embedding receives the
      -- canonized comparison between indexed terms; the term-interning of
      -- lines 442-448 is outside the comparison tables.
      let (i, comp, coeff, j) := canonize_comp tc
      if implies bb i comp coeff j then .ok bb
      else if implies bb i (comp_negate comp) coeff j then
        raise_contradiction bb i j
      else if comp = cGE ∨ comp = cGT ∨ comp = cLE ∨ comp = cLT then
        if coeff = 0 then step fuel (.azineq i comp) bb
        else step fuel (.aineq i comp coeff j) bb
      else if comp = cEQ then
        if coeff = 0 then step fuel (.azeq i) bb
        else step fuel (.aeq i coeff j) bb
      else if comp = cNE then
        if coeff = 0 then step fuel (.azdiseq i) bb
        else step fuel (.adiseq i coeff j) bb
      else
        -- line 471: `raise Error('Unrecognized comparison: {0!s}'.format())`
        -- — `.format()` is called with no arguments while the format string
        -- consumes positional argument 0, so the format call raises
        -- IndexError before the Error value is ever constructed.
        .error .indexError
    | .aineq i comp coeff j =>
      -- assert_inequality, lines 492-591.
      let bb := tracker_update bb (.inr (i, j))
      let old_comps := (alookup bb.inequalities (i, j)).getD []
      let new_comp := halfplane_of_comp comp coeff
      let proceed : Blackboard → List Halfplane → Except BBErr Blackboard :=
        fun bb new_comps =>
          -- lines 583-591
          step fuel (.uclause (.inr (i, j))) (aineq_store bb i j new_comps)
      do
        -- lines 505-509: origin projection
        let bb ←
          if i = 0 ∧ (comp = cLE ∨ comp = cLT) then
            if coeff > 0 then step fuel (.azineq j cGT) bb
            else if coeff < 0 then step fuel (.azineq j cLT) bb
            else .ok bb
          else .ok bb
        -- lines 510-527: first stored half-plane parallel to the new one
        match old_comps.find? (fun c => c.eq_dir new_comp || c.opp_dir new_comp) with
        | some c =>
          if c.eq_dir new_comp then
            if new_comp.strong && !c.strong then
              -- line 513: `c.strong = True` mutates the stored entry in
              -- place.  For i ≠ 0 the table entry is still the captured
              -- list, so this is an update of the (i, j) entry.
              let cur := (alookup bb.inequalities (i, j)).getD []
              let cur := cur.map (fun h => if h = c then ⟨h.a, h.b, true⟩ else h)
              .ok { bb with inequalities := aset bb.inequalities (i, j) cur }
            else .ok bb
          else
            if !new_comp.strong && !c.strong then
              step fuel (.acomp (i, cEQ, coeff, j)) bb
            else .error .assertionError
        | none =>
          -- lines 539-544
          if new_comp.strong && implies bb i (if comp = cGT then cGE else cLE) coeff j then
            step fuel (.aclause [(i, cNE, 0, 0), (j, cNE, 0, 0)]) bb
          else
            -- lines 546-581
            match old_comps with
            | [] => proceed bb [new_comp]
            | [old] =>
              let k := old.compare_hp new_comp
              if k < 0 then proceed bb [old, new_comp]
              else if k > 0 then proceed bb [new_comp, old]
              else .error .assertionError
            | o0 :: o1 :: _ =>
              if new_comp.strong && implies bb i (comp_weaken comp) coeff j then
                -- lines 560-563 (the identical condition already returned at
                -- lines 539-544, so this branch is unreachable)
                do
                  let bb ← step fuel (.acomp (i, cNE, 0, 0)) bb
                  step fuel (.acomp (j, cNE, 0, 0)) bb
              else
                let new_comps :=
                  if o0.compare_hp new_comp > 0 ∧ o1.compare_hp new_comp > 0 then
                    [new_comp, o1]
                  else [o0, new_comp]
                if (new_comps.headD ⟨0, 0, false⟩).compare_hp
                    ((new_comps.drop 1).headD ⟨0, 0, false⟩) = 0 then
                  -- lines 578-581
                  step fuel (.aeq i coeff j)
                    { bb with inequalities := aremove bb.inequalities (i, j) }
                else proceed bb new_comps
    | .azineq i comp =>
      -- assert_zero_inequality, lines 593-672.
      let bb :=
        if i ∈ bb.zero_disequalities then
          -- lines 598-604
          let c := if comp = cGE ∨ comp = cGT then cGT else cLT
          let bb := { bb with zero_disequalities := sremove bb.zero_disequalities i }
          let des := ((alookup bb.disequalities (0, i)).getD []).filter
            (fun k => !comp_eval c k 0)
          if des.length > 0 then
            { bb with disequalities := aset bb.disequalities (0, i) des }
          else bb
          -- (when `des` is empty, any existing (0, i) entry stays: the
          -- source reads it with `.get` and never removes it)
        else bb
      let bb := tracker_update bb (.inl i)
      -- lines 609-615
      if (match alookup bb.zero_inequalities i with
          | some z => ((z = cLE ∨ z = cGE) ∧ (comp = cLE ∨ comp = cGE) : Bool)
          | none => false) then
        step fuel (.azeq i)
          { bb with zero_inequalities := aremove bb.zero_inequalities i }
      else
        let bb := { bb with zero_inequalities := aset bb.zero_inequalities i comp }
        let st := zi_fanout i comp bb
        do
          let bb ← st.2.foldlM
            (fun b e => step fuel (.acomp (e.1, e.2, 0, 0)) b) st.1
          step fuel (.uclause (.inl i)) bb
    | .aeq i coeff j =>
      -- assert_equality, lines 674-686.
      let bb := { bb with equalities := aset bb.equalities (i, j) coeff }
      -- lines 680-683: `self.inequalities.pop(i, j)` and
      -- `self.disequalities.pop(i, j)` call dict.pop with the *integer* i as
      -- the key and j as the default value; the tables are keyed by pairs,
      -- so neither call removes anything and both tables are unchanged.
      let bb := tracker_update bb (.inr (i, j))
      step fuel (.uclause (.inr (i, j))) bb
    | .azeq i =>
      -- assert_zero_equality, lines 688-699.  The loop iterates over the
      -- zero-equality set as captured at entry.
      do
        let bb ← bb.zero_equalities.foldlM
          (fun b k => step fuel (.acomp (i, cEQ, 1, k)) b) bb
        let bb := { bb with zero_equalities := sinsert bb.zero_equalities i }
        let bb ← step fuel (.uclause (.inl i)) bb
        .ok (tracker_update bb (.inl i))
    | .adiseq i coeff j =>
      -- assert_disequality, lines 701-730.  The superseding loop iterates
      -- over the (i, j) pair entry as captured at entry.
      let entry := (alookup bb.inequalities (i, j)).getD []
      do
        let st ← entry.foldlM
          (fun (st : Blackboard × Bool) c => do
            let (bb, sup) := st
            let (comp1, coeff1) := c.to_comp
            if coeff1 = coeff then
              if comp1 = cGE then do
                let bb ← step fuel (.aineq i cGT coeff j) bb
                pure (bb, true)
              else if comp1 = cLE then do
                let bb ← step fuel (.aineq i cLT coeff j) bb
                pure (bb, true)
              else pure (bb, sup)
            else pure (bb, sup))
          (bb, false)
        let bb := st.1
        if st.2 then .ok bb
        else
          let bb :=
            match alookup bb.disequalities (i, j) with
            | some s =>
              if coeff ∈ s then bb
              else { bb with disequalities := aset bb.disequalities (i, j) (s ++ [coeff]) }
            | none => { bb with disequalities := aset bb.disequalities (i, j) [coeff] }
          let bb ← step fuel (.uclause (.inr (i, j))) bb
          .ok (tracker_update bb (.inr (i, j)))
    | .azdiseq i =>
      -- assert_zero_disequality, lines 732-749.
      do
        let bb ←
          match alookup bb.zero_inequalities i with
          | some z =>
            if z = cLE then step fuel (.azineq i cLT) bb
            else if z = cGE then step fuel (.azineq i cGT) bb
            else .ok bb
          | none =>
            .ok { bb with zero_disequalities := sinsert bb.zero_disequalities i }
        let bb ← step fuel (.uclause (.inl i)) bb
        .ok (tracker_update bb (.inl i))
    | .uclause _p =>
      -- update_clause, lines 244-276.  The per-index update methods of
      -- Clause re-evaluate the literals against the tables (spec §4.4.6);
      -- the index argument only restricts which literals need re-reading,
      -- so the update is modelled as a full re-evaluation.
      let cs2 := (bb.clauses.map (clause_update bb)).filter (fun c => !c.satisfied)
      let bb := { bb with clauses := cs2 }
      if cs2.any (fun c => c.size = 0) then
        -- line 269: raise_contradiction(100, terms.EQ, 100, 100)
        raise_contradiction bb 100 100
      else
        let unit := cs2.filter (fun c => c.size = 1)
        let bb := { bb with clauses := cs2.filter (fun c => ¬ c.size = 1) }
        unit.foldlM (fun b c => step fuel (.acomp c.first) b) bb
    | .aclause lits =>
      -- assert_clause, lines 751-779.
      let disjunctions := lits.map canonize_comp
      let c := clause_update bb ⟨disjunctions, false⟩
      if c.satisfied then .ok bb
      else if c.size > 1 then
        .ok { bb with clauses :=
          if c ∈ bb.clauses then bb.clauses else bb.clauses ++ [c] }
      else if c.size = 1 then step fuel (.acomp c.first) bb
      else raise_contradiction bb 0 0

/-- `Blackboard.assert_comparison` (fuel-indexed). -/
def assert_comparison (fuel : ℕ) (bb : Blackboard) (tc : TC) :
    Except BBErr Blackboard := step fuel (.acomp tc) bb

/-- `Blackboard.assert_inequality` (fuel-indexed). -/
def assert_inequality (fuel : ℕ) (bb : Blackboard) (i : ℕ) (comp : Comp)
    (coeff : ℚ) (j : ℕ) : Except BBErr Blackboard :=
  step fuel (.aineq i comp coeff j) bb

/-- `Blackboard.assert_zero_inequality` (fuel-indexed). -/
def assert_zero_inequality (fuel : ℕ) (bb : Blackboard) (i : ℕ) (comp : Comp) :
    Except BBErr Blackboard := step fuel (.azineq i comp) bb

/-- `Blackboard.assert_equality` (fuel-indexed). -/
def assert_equality (fuel : ℕ) (bb : Blackboard) (i : ℕ) (coeff : ℚ) (j : ℕ) :
    Except BBErr Blackboard := step fuel (.aeq i coeff j) bb

/-- `Blackboard.assert_zero_equality` (fuel-indexed). -/
def assert_zero_equality (fuel : ℕ) (bb : Blackboard) (i : ℕ) :
    Except BBErr Blackboard := step fuel (.azeq i) bb

/-- `Blackboard.assert_disequality` (fuel-indexed). -/
def assert_disequality (fuel : ℕ) (bb : Blackboard) (i : ℕ) (coeff : ℚ) (j : ℕ) :
    Except BBErr Blackboard := step fuel (.adiseq i coeff j) bb

/-- `Blackboard.assert_zero_disequality` (fuel-indexed). -/
def assert_zero_disequality (fuel : ℕ) (bb : Blackboard) (i : ℕ) :
    Except BBErr Blackboard := step fuel (.azdiseq i) bb

/-- `Blackboard.update_clause` (fuel-indexed). -/
def update_clause (fuel : ℕ) (bb : Blackboard) (p : UKey) :
    Except BBErr Blackboard := step fuel (.uclause p) bb

/-- `Blackboard.assert_clause` (fuel-indexed). -/
def assert_clause (fuel : ℕ) (bb : Blackboard) (lits : List TC) :
    Except BBErr Blackboard := step fuel (.aclause lits) bb

/-- `Blackboard.get_inequalities` (lines 209-221): one comparison
`t_i comp 0` per zero-inequality entry, then for each pair entry the
comparisons of those stored half-planes whose coefficients a and b are both
nonzero.  A comparison is represented by the canonized quadruple. -/
def get_inequalities (bb : Blackboard) : List TC :=
  bb.zero_inequalities.map (fun e => (e.1, e.2, (0 : ℚ), 0))
  ++ bb.inequalities.flatMap (fun e =>
      (e.2.filter (fun hp => hp.a ≠ 0 ∧ hp.b ≠ 0)).map (fun hp =>
        (e.1.1, hp.to_comp.1, hp.to_comp.2, e.1.2)))

/-- `Blackboard.get_halfplane_comparisons(i, j)` (lines 871-899): the
stored pair half-planes normalized to the (t_i, t_j) plane, folded together
with the half-planes for the zero-sign facts on i and j.  (The half-planes
built for j at lines 891-897 are transcribed exactly as in the source.) -/
def get_halfplane_comparisons (bb : Blackboard) (i j : ℕ) : List Halfplane :=
  let hp_comps :=
    if i < j then (alookup bb.inequalities (i, j)).getD []
    else ((alookup bb.inequalities (j, i)).getD []).map halfplane_flip
  let hp_comps :=
    match alookup bb.zero_inequalities i with
    | some comp =>
      let new_hp : Halfplane :=
        if comp = cGT ∨ comp = cGE then ⟨0, -1, comp = cGT⟩
        else ⟨0, 1, comp = cLT⟩
      add_halfplane_comparison new_hp hp_comps
    | none => hp_comps
  match alookup bb.zero_inequalities j with
  | some comp =>
    let new_hp : Halfplane :=
      if comp = cGT ∨ comp = cGE then ⟨-1, 0, comp = cGT⟩
      else ⟨1, 0, comp = cLT⟩
    add_halfplane_comparison new_hp hp_comps
  | none => hp_comps

/-- `Blackboard.get_le_range(i, j)` (lines 901-995): the ComparisonRange of
the coefficients c for which `t_i ≤ c * t_j` is known. -/
def get_le_range (bb : Blackboard) (i j : ℕ) : ComparisonRange :=
  let sj := sign bb j
  let wsj := weak_sign bb j
  if i = j ∨ (i < j ∧ (alookup bb.equalities (i, j)).isSome)
      ∨ (j < i ∧ (alookup bb.equalities (j, i)).isSome) then
    -- lines 912-928
    let coeff : Extended :=
      if i = j then .val 1
      else if i < j then .val ((alookup bb.equalities (i, j)).getD 0)
      else .val (1 / (alookup bb.equalities (j, i)).getD 0)
    if sj = 1 then ⟨coeff, .infty, false, true, true⟩
    else if wsj = 1 then ⟨coeff, .infty, false, false, false⟩
    else if sj = -1 then ⟨.neg_infty, coeff, true, true, false⟩
    else if wsj = -1 then ⟨.neg_infty, coeff, false, false, false⟩
    else ⟨coeff, coeff, false, false, false⟩
  else if j ∈ bb.zero_equalities then
    -- lines 930-944
    if i ∈ bb.zero_equalities then ⟨.neg_infty, .infty, false, false, false⟩
    else
      match alookup bb.zero_inequalities i with
      | some z =>
        if z = cLT then ⟨.neg_infty, .infty, true, true, true⟩
        else if z = cLE then ⟨.neg_infty, .infty, false, false, false⟩
        else empty_range
      | none => empty_range
  else if i ∈ bb.zero_equalities then
    -- lines 946-962
    match alookup bb.zero_inequalities j with
    | some comp =>
      if comp = cGT then ⟨.val 0, .infty, false, true, true⟩
      else if comp = cGE then ⟨.val 0, .infty, false, false, false⟩
      else if comp = cLE then ⟨.neg_infty, .val 0, false, false, false⟩
      else ⟨.neg_infty, .val 0, false, true, true⟩
    | none => empty_range
  else
    -- lines 964-995
    match get_halfplane_comparisons bb i j with
    | [] => empty_range
    | [hp] =>
      if hp.b ≤ 0 then empty_range
      else
        let coeff : Extended := .val (hp.a / hp.b)
        ⟨coeff, coeff, hp.strong, hp.strong, hp.strong⟩
    | hpa :: hpb :: _ =>
      let interior_strong := implies_zero_comparison bb i cNE
        || implies_zero_comparison bb j cNE
      let (hp0, hp1) := if hpa.compare_hp hpb = 1 then (hpb, hpa) else (hpa, hpb)
      if hp0.b ≤ 0 ∧ hp1.b ≤ 0 then empty_range
      else if hp0.b ≤ 0 then
        ⟨.neg_infty, .val (hp1.a / hp1.b), true, interior_strong, hp1.strong⟩
      else if hp1.b ≤ 0 then
        ⟨.val (hp0.a / hp0.b), .infty, hp0.strong, interior_strong, true⟩
      else
        ⟨.val (hp0.a / hp0.b), .val (hp1.a / hp1.b),
          hp0.strong, interior_strong, hp1.strong⟩

/-- `Blackboard.get_ge_range(i, j)` (lines 999-1093): the ComparisonRange of
the coefficients c for which `t_i ≥ c * t_j` is known. -/
def get_ge_range (bb : Blackboard) (i j : ℕ) : ComparisonRange :=
  let sj := sign bb j
  let wsj := weak_sign bb j
  if i = j ∨ (i < j ∧ (alookup bb.equalities (i, j)).isSome)
      ∨ (j < i ∧ (alookup bb.equalities (j, i)).isSome) then
    -- lines 1010-1026
    let coeff : Extended :=
      if i = j then .val 1
      else if i < j then .val ((alookup bb.equalities (i, j)).getD 0)
      else .val (1 / (alookup bb.equalities (j, i)).getD 0)
    if sj = 1 then ⟨.neg_infty, coeff, true, true, false⟩
    else if wsj = 1 then ⟨.neg_infty, coeff, false, false, false⟩
    else if sj = -1 then ⟨coeff, .infty, false, true, true⟩
    else if wsj = -1 then ⟨coeff, .infty, false, false, false⟩
    else ⟨coeff, coeff, false, false, false⟩
  else if j ∈ bb.zero_equalities then
    -- lines 1028-1042
    if i ∈ bb.zero_equalities then ⟨.neg_infty, .infty, false, false, false⟩
    else
      match alookup bb.zero_inequalities i with
      | some z =>
        if z = cGT then ⟨.neg_infty, .infty, true, true, true⟩
        else if z = cGE then ⟨.neg_infty, .infty, false, false, false⟩
        else empty_range
      | none => empty_range
  else if i ∈ bb.zero_equalities then
    -- lines 1044-1060
    match alookup bb.zero_inequalities j with
    | some comp =>
      if comp = cGT then ⟨.neg_infty, .val 0, true, true, false⟩
      else if comp = cGE then ⟨.neg_infty, .val 0, false, false, false⟩
      else if comp = cLE then ⟨.val 0, .infty, false, false, false⟩
      else ⟨.val 0, .infty, true, true, false⟩
    | none => empty_range
  else
    -- lines 1062-1093
    match get_halfplane_comparisons bb i j with
    | [] => empty_range
    | [hp] =>
      if hp.b ≥ 0 then empty_range
      else
        let coeff : Extended := .val (hp.a / hp.b)
        ⟨coeff, coeff, hp.strong, hp.strong, hp.strong⟩
    | hpa :: hpb :: _ =>
      let interior_strong := implies_zero_comparison bb i cNE
        || implies_zero_comparison bb j cNE
      let (hp0, hp1) := if hpa.compare_hp hpb = 1 then (hpb, hpa) else (hpa, hpb)
      if hp0.b ≥ 0 ∧ hp1.b ≥ 0 then empty_range
      else if hp0.b ≥ 0 then
        ⟨.neg_infty, .val (hp1.a / hp1.b), true, interior_strong, hp1.strong⟩
      else if hp1.b ≥ 0 then
        ⟨.val (hp0.a / hp0.b), .infty, hp0.strong, interior_strong, true⟩
      else
        ⟨.val (hp0.a / hp0.b), .val (hp1.a / hp1.b),
          hp0.strong, interior_strong, hp1.strong⟩

/-- `Blackboard.le_coeff_range(i, j, coeff)` (lines 1095-1120): the range of
values c for which `c * t_i ≤ coeff * t_j` is known to hold. -/
def le_coeff_range (bb : Blackboard) (i j : ℕ) (coeff : ℚ) : ComparisonRange :=
  if coeff = 0 then
    if i ∈ bb.zero_equalities then ⟨.neg_infty, .infty, false, false, false⟩
    else
      match alookup bb.zero_inequalities i with
      | some z =>
        if z = cGT then ⟨.neg_infty, .infty, true, true, true⟩
        else if z = cGE then ⟨.neg_infty, .infty, false, false, false⟩
        else empty_range
      | none => empty_range
  else if coeff > 0 then (get_ge_range bb j i).scale coeff
  else (get_le_range bb j i).scale coeff

/-! ### Concrete blackboard states used by the counterexamples and
failing-input evaluations.  Each is an ordinary reachable-shaped state: a
small number of terms, a pair entry or two, no pending subscriber sets. -/

/-- The empty blackboard over n terms (all comparison tables empty; the
baseline `t_0 > 0` entry is left out because none of the evaluations below
involve index 0). -/
def bbEmpty (n : ℕ) : Blackboard := ⟨n, [], [], [], [], [], [], [], []⟩

/-- Failing input for the `assert_equality` claim: the pair (1, 2) has both
a stored half-plane (t_1 ≤ 2·t_2) and a stored disequality (t_1 ≠ 5·t_2). -/
def bbEq : Blackboard :=
  { bbEmpty 3 with
    inequalities := [((1, 2), [⟨2, 1, false⟩])],
    disequalities := [((1, 2), [5])] }

/-- Failing input for the zero-inequality emission claim: the pair (1, 2)
stores the two non-strict half-planes for t_1 ≥ 2·t_2 and t_1 ≤ t_2 (which
force t_2 ≤ 0, with t_1 = t_2 = 0 allowed). -/
def bbZI : Blackboard :=
  { bbEmpty 3 with inequalities := [((1, 2), [⟨1, -2, false⟩, ⟨-1, 1, false⟩])] }

/-- Failing input for the range-soundness claim: t_1 ≤ 2·t_2 is stored for
the pair (1, 2) and t_2 > 0 is a stored zero fact. -/
def bbLeR : Blackboard :=
  { bbEmpty 3 with
    inequalities := [((1, 2), [⟨2, 1, false⟩])],
    zero_inequalities := [(2, cGT)] }

/-- Failing input for the clause-contradiction claim: t_1 = 0 and t_2 = 0
are known, and the clause {t_1 > 0, t_2 < 0} is stored; updating it empties
the clause. -/
def bbCl : Blackboard :=
  { bbEmpty 3 with
    zero_equalities := [1, 2],
    clauses := [⟨[(1, cGT, 0, 0), (2, cLT, 0, 0)], false⟩] }

/-- Counterexample state for the origin-projection claim: the pair (1, 2)
stores the two strict half-planes for t_2 > 2·t_1 and t_2 > -t_1 (which
force t_2 > 0 once t_1 > 0 arrives). -/
def bbSandwich : Blackboard :=
  { bbEmpty 3 with inequalities := [((1, 2), [⟨1, 2, true⟩, ⟨1, -1, true⟩])] }

/-- Counterexample state for the coefficient-range claim: t_1 = 0 is known
and t_2 > 0 is known. -/
def bbRange : Blackboard :=
  { bbEmpty 3 with zero_equalities := [1], zero_inequalities := [(2, cGT)] }

/-- Concrete state for the `get_inequalities` witness: one zero fact and one
pair half-plane with both coefficients nonzero. -/
def bbGI : Blackboard :=
  { bbEmpty 2 with
    zero_inequalities := [(1, cGT)],
    inequalities := [((0, 1), [⟨2, 1, false⟩])] }

/-- Concrete state for the tracker witness: subscriber 0 has read before,
the tables hold one zero equality. -/
def bbTr : Blackboard :=
  { bbEmpty 1 with zero_equalities := [3], updates := [(0, [])] }

/-- State reached by a first `assert_comparison(t_1 ≥ 2·t_2)` on the empty
three-term blackboard. -/
def bbIdem : Blackboard :=
  { bbEmpty 3 with inequalities := [((1, 2), [⟨-2, -1, false⟩])] }

/-- Result state of `assert_inequality(0, LE, 1, 1)` on the empty two-term
blackboard: the pair (0, 1) stores the half-plane for t_0 ≤ t_1, and the
projected zero fact t_1 > 0 is recorded. -/
def bbOP : Blackboard :=
  { bbEmpty 2 with
    inequalities := [((0, 1), [⟨1, 1, false⟩])],
    zero_inequalities := [(1, cGT)] }

/-- Result state of `assert_inequality(1, GE, 2, 2)` on the empty three-term
blackboard (the no-zero-projection half of the origin-projection witness). -/
def bbPB : Blackboard :=
  { bbEmpty 3 with inequalities := [((1, 2), [⟨-2, -1, false⟩])] }

/-- The zero-coefficient case of `le_coeff_range`, stated following the
claim's words: the full line when t_i = 0 or t_i ≥ 0 or t_i > 0 is known,
with all three strictness bits set exactly when t_i > 0 is known strictly,
and the empty range otherwise. -/
def le_coeff_range_zero_claim (bb : Blackboard) (i : ℕ) : ComparisonRange :=
  if i ∈ bb.zero_equalities ∨ alookup bb.zero_inequalities i = some cGE
      ∨ alookup bb.zero_inequalities i = some cGT then
    let s := decide (i ∉ bb.zero_equalities
      ∧ alookup bb.zero_inequalities i = some cGT)
    ⟨.neg_infty, .infty, s, s, s⟩
  else empty_range

/-! ### Basic lemmas about the embedded dictionaries and the tracker -/

theorem alookup_nil {κ α : Type} [DecidableEq κ] (k : κ) :
    alookup ([] : List (κ × α)) k = none := rfl

theorem alookup_cons {κ α : Type} [DecidableEq κ] (e : κ × α)
    (l : List (κ × α)) (k : κ) :
    alookup (e :: l) k = if e.1 = k then some e.2 else alookup l k := by
  by_cases h : e.1 = k <;> simp [alookup, List.find?_cons, h]

theorem alookup_aset_self {κ α : Type} [DecidableEq κ]
    (l : List (κ × α)) (k : κ) (v : α) : alookup (aset l k v) k = some v := by
  induction l with
  | nil => simp [aset, alookup_cons, alookup_nil]
  | cons e t ih =>
    by_cases h : e.1 = k
    · simp [aset, h, alookup_cons]
    · simp [aset, h, alookup_cons, ih]

theorem alookup_aset_ne {κ α : Type} [DecidableEq κ]
    (l : List (κ × α)) (k k' : κ) (v : α) (h : ¬ k = k') :
    alookup (aset l k v) k' = alookup l k' := by
  induction l with
  | nil => simp [aset, alookup_cons, alookup_nil, h]
  | cons e t ih =>
    by_cases he : e.1 = k
    · simp [aset, he, alookup_cons, h]
    · simp [aset, he, alookup_cons, ih]

theorem tracker_update_fields (bb : Blackboard) (k : UKey) :
    (tracker_update bb k).num_terms = bb.num_terms ∧
    (tracker_update bb k).inequalities = bb.inequalities ∧
    (tracker_update bb k).zero_inequalities = bb.zero_inequalities ∧
    (tracker_update bb k).equalities = bb.equalities ∧
    (tracker_update bb k).zero_equalities = bb.zero_equalities ∧
    (tracker_update bb k).disequalities = bb.disequalities ∧
    (tracker_update bb k).zero_disequalities = bb.zero_disequalities ∧
    (tracker_update bb k).clauses = bb.clauses := by
  simp [tracker_update]

theorem except_bind_ok {ε α β : Type} (a : α) (f : α → Except ε β) :
    (Except.ok a >>= f) = f a := rfl

theorem except_pure_eq {ε α : Type} (a : α) :
    (pure a : Except ε α) = Except.ok a := rfl


/-- C1: The claim states that after `assert_equality(i, coeff, j)` the
equalities table maps (i, j) to coeff AND no (i, j) entry remains in the
inequalities or disequalities tables.  On `bbEq`, `assert_equality(1, 3, 2)`
sets `equalities[(1, 2)] = 3` but leaves both the half-plane entry and the
disequality entry for (1, 2) in place: lines 680-683 call
`self.inequalities.pop(i, j)` and `self.disequalities.pop(i, j)`, which is
`dict.pop` with the integer key `i` and default `j` — never the pair key
(i, j) — so nothing is removed and invariant I2 is violated. -/
theorem assert_equality_pop_bug :
    (assert_equality 5 bbEq 1 3 2).toOption.map
      (fun b => (alookup b.equalities (1, 2), alookup b.inequalities (1, 2),
                 alookup b.disequalities (1, 2)))
    = some (some 3, some [⟨2, 1, false⟩], some [5]) := by with_unfolding_all rfl

/-- C2: The claim states that a zero-inequality emitted for j by
`assert_zero_inequality` is strict iff both stored half-planes are strict,
and that the negative-side emission with non-strict half-planes is the
non-strict `t_j ≤ 0`.  On `bbZI` (both stored half-planes non-strict,
forcing t_2 ≤ 0; t_1 = t_2 = 0 satisfies everything asserted), asserting
`t_1 ≥ 0` records the strict `t_2 < 0` (`cLT`): lines 664-668 append
`IVar(j) < 0` in both arms of their `if strong: ... else: ...`, so the
non-strict case is never produced and the recorded fact is unsound. -/
theorem assert_zero_inequality_strict_emission_bug :
    (assert_zero_inequality 10 bbZI 1 cGE).toOption.map
      (fun b => alookup b.zero_inequalities 2)
    = some (some cLT) := by with_unfolding_all rfl

/-- C3: The claim states that every coefficient in `get_le_range(i, j)`
satisfies `implies(i, LE, c, j)` (when j is not known zero and no (i, j)
equality is stored).  On `bbLeR` (t_1 ≤ 2·t_2 stored, t_2 > 0 known, so the
true answer is the range [2, ∞)), `get_le_range(1, 2)` instead returns
(-∞, 2], which contains 0, while `implies(1, LE, 0, 2)` is false: lines
891-897 of `get_halfplane_comparisons` build the half-plane for t_j ≤ 0 /
t_j < 0 out of a stored `t_j ≥ 0` / `t_j > 0` fact (the two branches are
swapped relative to lines 885-888, 623-626 and 654-655). -/
theorem get_le_range_unsound :
    ((2 ∈ bbLeR.zero_equalities : Bool),
      alookup bbLeR.equalities (1, 2),
      get_le_range bbLeR 1 2,
      (get_le_range bbLeR 1 2).mem 0,
      implies bbLeR 1 cLE 0 2)
    = (false, none, ⟨.neg_infty, .val 2, true, true, false⟩, true, false) := by
  with_unfolding_all rfl

/-- C6: The claim states that a clause whose literal count reaches zero
makes `update_clause` raise Contradiction.  On `bbCl` the stored clause
{t_1 > 0, t_2 < 0} loses both literals (t_1 = 0 and t_2 = 0 are known), and
`update_clause` executes `raise_contradiction(100, EQ, 100, 100)`
(line 269), whose message formatting reads `self.terms[100]`; with only 3
defined terms this raises `KeyError`, not Contradiction. -/
theorem update_clause_empty_keyerror :
    update_clause 5 bbCl (.inl 1) = .error .keyError := by with_unfolding_all rfl

/-- C9: The claim states that `assert_comparison` on a canonized comparison
whose comparison constant is outside {LT, LE, GT, GE, EQ, NE} raises the
module's `Error` with the offending value in the message.  The fallback at
line 471 is `raise Error('Unrecognized comparison: {0!s}'.format())`: the
format string consumes positional argument 0 but `.format()` receives none,
so the format call raises `IndexError` before any `Error` is constructed —
no `Error` (and no message naming the value) is ever raised. -/
theorem assert_comparison_unrecognized_indexerror :
    assert_comparison 5 (bbEmpty 3) (1, 6, 1, 2) = .error .indexError := by
  with_unfolding_all rfl

/-! ### C7: `le_coeff_range` -/


/-- C7 counterexample: the claim says `le_coeff_range(i, j, coeff)` equals
`get_ge_range(j, i)` scaled by coeff for every nonzero coeff.  On `bbRange`
(t_1 = 0 and t_2 > 0 known) with coeff = -1 the two sides differ:
`le_coeff_range` follows line 1120 and scales `get_le_range(j, i)` instead,
giving (-∞, 0] with a strict lower end, while the scaled ge-range is
[0, ∞). -/
theorem le_coeff_range_neg_not_ge_scaled :
    (le_coeff_range bbRange 2 1 (-1),
      (get_ge_range bbRange 1 2).scale (-1),
      decide (le_coeff_range bbRange 2 1 (-1) = (get_ge_range bbRange 1 2).scale (-1)))
    = (⟨.neg_infty, .val 0, true, true, false⟩,
       ⟨.val 0, .infty, false, true, true⟩, false) := by
  with_unfolding_all rfl

/-- C7 (amended): `le_coeff_range(i, j, coeff)` equals `get_ge_range(j, i)`
scaled by coeff when coeff > 0, equals `get_le_range(j, i)` scaled by coeff
when coeff < 0, and for coeff = 0 is determined only by the zero-sign
information on i exactly as the claim describes (full line iff t_i = 0,
t_i ≥ 0 or t_i > 0 is known, with all three strictness bits set exactly when
t_i > 0 is known strictly; empty range otherwise). -/
theorem le_coeff_range_spec (bb : Blackboard) (i j : ℕ) (coeff : ℚ) :
    (0 < coeff → le_coeff_range bb i j coeff = (get_ge_range bb j i).scale coeff) ∧
    (coeff < 0 → le_coeff_range bb i j coeff = (get_le_range bb j i).scale coeff) ∧
    (coeff = 0 → le_coeff_range bb i j coeff = le_coeff_range_zero_claim bb i) := by
  refine ⟨fun h => ?_, fun h => ?_, fun h => ?_⟩
  · simp [le_coeff_range, h, h.ne']
  · simp [le_coeff_range, h, h.ne, not_lt.mpr h.le]
  · subst h
    by_cases hz : i ∈ bb.zero_equalities
    · simp [le_coeff_range, le_coeff_range_zero_claim, hz]
    · cases hzi : alookup bb.zero_inequalities i with
      | none => simp [le_coeff_range, le_coeff_range_zero_claim, hz, hzi]
      | some z =>
        by_cases hgt : z = cGT
        · simp [le_coeff_range, le_coeff_range_zero_claim, hz, hzi, hgt]
        · by_cases hge : z = cGE
          · simp [le_coeff_range, le_coeff_range_zero_claim, hz, hzi, hge, cGE, cGT]
          · simp [le_coeff_range, le_coeff_range_zero_claim, hz, hzi, hgt, hge]

/-- Witness for `le_coeff_range_spec` at a concrete input. -/
theorem le_coeff_range_spec_witness :
    le_coeff_range (bbEmpty 1) 0 0 1 = (get_ge_range (bbEmpty 1) 0 0).scale 1 :=
  (le_coeff_range_spec (bbEmpty 1) 0 0 1).1 zero_lt_one

/-! ### C10: `get_inequalities` -/

/-- C10: `get_inequalities` returns one comparison `t_i comp 0` for every
zero-inequality entry; from the pair table it returns exactly the
comparisons of stored half-planes whose a- and b-coefficients are both
nonzero, so an axis-aligned stored half-plane contributes nothing. -/
theorem get_inequalities_spec (bb : Blackboard) :
    (∀ e ∈ bb.zero_inequalities, (e.1, e.2, (0 : ℚ), 0) ∈ get_inequalities bb) ∧
    (∀ e ∈ bb.inequalities, ∀ hp ∈ e.2, hp.a ≠ 0 → hp.b ≠ 0 →
      (e.1.1, hp.to_comp.1, hp.to_comp.2, e.1.2) ∈ get_inequalities bb) ∧
    (∀ tc ∈ get_inequalities bb,
      (∃ e ∈ bb.zero_inequalities, tc = (e.1, e.2, (0 : ℚ), 0)) ∨
      (∃ e ∈ bb.inequalities, ∃ hp ∈ e.2, hp.a ≠ 0 ∧ hp.b ≠ 0 ∧
        tc = (e.1.1, hp.to_comp.1, hp.to_comp.2, e.1.2))) := by
  refine ⟨fun e he => ?_, fun e he hp hhp ha hb => ?_, fun tc htc => ?_⟩
  · simp only [get_inequalities, List.mem_append, List.mem_map]
    exact Or.inl ⟨e, he, rfl⟩
  · simp only [get_inequalities, List.mem_append, List.mem_flatMap,
      List.mem_map, List.mem_filter]
    exact Or.inr ⟨e, he, hp, ⟨hhp, by simp [ha, hb]⟩, rfl⟩
  · simp only [get_inequalities, List.mem_append, List.mem_flatMap,
      List.mem_map, List.mem_filter] at htc
    rcases htc with ⟨e, he, rfl⟩ | ⟨e, he, hp, ⟨hhp, hab⟩, rfl⟩
    · exact Or.inl ⟨e, he, rfl⟩
    · simp only [decide_eq_true_eq] at hab
      exact Or.inr ⟨e, he, hp, hhp, hab.1, hab.2, rfl⟩


/-- Witness for `get_inequalities_spec` at a concrete input. -/
theorem get_inequalities_spec_witness :
    ((1 : ℕ), cGT, (0 : ℚ), (0 : ℕ)) ∈ get_inequalities bbGI ∧
    ((0 : ℕ), (Halfplane.mk 2 1 false).to_comp.1,
      (Halfplane.mk 2 1 false).to_comp.2, (1 : ℕ)) ∈ get_inequalities bbGI :=
  ⟨(get_inequalities_spec bbGI).1 (1, cGT) (by simp [bbGI, bbEmpty]),
   (get_inequalities_spec bbGI).2.1 ((0, 1), [⟨2, 1, false⟩])
     (by simp [bbGI, bbEmpty]) ⟨2, 1, false⟩ (by simp)
     two_ne_zero one_ne_zero⟩

/-! ### C8: the update tracker -/

/-- `x ∈ sinsert l x`. -/
theorem mem_sinsert_self {α : Type} [DecidableEq α] (l : List α) (x : α) :
    x ∈ sinsert l x := by
  by_cases h : x ∈ l <;> simp [sinsert, h]

/-- C8: (1) a first `get_new_info` read returns exactly the keys currently
present in the comparison tables (pair keys of the three pair tables,
indices of the three zero tables); (2) an immediately repeated read returns
the empty set, and `has_new_info` is then false; (3) `Tracker.update(key)`
adds the key to the pending set of every module that has previously read
(i.e. every module with an entry in `updates`). -/
theorem tracker_spec :
    (∀ (bb : Blackboard) (m : ℕ), alookup bb.updates m = none →
      ∀ k : UKey, k ∈ (get_new_info bb m).1 ↔
        ((∃ e ∈ bb.inequalities, k = .inr e.1)
          ∨ (∃ e ∈ bb.disequalities, k = .inr e.1)
          ∨ (∃ e ∈ bb.equalities, k = .inr e.1)
          ∨ (∃ e ∈ bb.zero_inequalities, k = .inl e.1)
          ∨ (∃ i ∈ bb.zero_equalities, k = .inl i)
          ∨ (∃ i ∈ bb.zero_disequalities, k = .inl i))) ∧
    (∀ (bb : Blackboard) (m : ℕ),
      (get_new_info (get_new_info bb m).2 m).1 = [] ∧
      has_new_info (get_new_info bb m).2 m = false) ∧
    (∀ (bb : Blackboard) (key : UKey) (m : ℕ) (s : List UKey),
      (m, s) ∈ bb.updates →
      ∃ s', (m, s') ∈ (tracker_update bb key).updates ∧ key ∈ s') := by
  refine ⟨fun bb m hm k => ?_, fun bb m => ?_, fun bb key m s hm => ?_⟩
  · rw [get_new_info, hm]
    simp only [List.mem_append, List.mem_map]
    aesop
  · have hu : (get_new_info bb m).2.updates = aset bb.updates m [] := by
      rw [get_new_info]; rcases alookup bb.updates m with _ | s <;> rfl
    constructor
    · rw [get_new_info, hu, alookup_aset_self]
    · rw [has_new_info, hu, alookup_aset_self]
      rfl
  · exact ⟨sinsert s key,
      List.mem_map_of_mem (fun e => (e.1, sinsert e.2 key)) hm,
      mem_sinsert_self s key⟩


/-- Witness for `tracker_spec` at concrete inputs. -/
theorem tracker_spec_witness :
    ((Sum.inl 3 : UKey) ∈ (get_new_info bbTr 5).1) ∧
    ((get_new_info (get_new_info bbTr 5).2 5).1 = [] ∧
      has_new_info (get_new_info bbTr 5).2 5 = false) ∧
    (∃ s', ((0 : ℕ), s') ∈ (tracker_update bbTr (.inl 9)).updates ∧
      (Sum.inl 9 : UKey) ∈ s') :=
  ⟨(tracker_spec.1 bbTr 5 (by with_unfolding_all rfl) (.inl 3)).mpr
      (by simp [bbTr, bbEmpty]),
   tracker_spec.2.1 bbTr 5,
   tracker_spec.2.2 bbTr (.inl 9) 0 [] (by simp [bbTr, bbEmpty])⟩

/-! ### C4: idempotence of `assert_comparison` -/

/-- C4: once a canonized comparison has been recorded — a first call
returned normally and the resulting tables imply the comparison — an
immediately repeated `assert_comparison` on the same comparison returns
without raising through the fast exit of line 450, with the state (hence
every table and every subscriber's pending update set) unchanged. -/
theorem assert_comparison_idempotent (bb0 bb : Blackboard) (i : ℕ)
    (comp : Comp) (coeff : ℚ) (j : ℕ) (fuel fuel' : ℕ)
    (hcanon : canonize_comp (i, comp, coeff, j) = (i, comp, coeff, j))
    (_hfirst : assert_comparison fuel bb0 (i, comp, coeff, j) = .ok bb)
    (hrecorded : implies bb i comp coeff j = true) :
    assert_comparison (fuel' + 1) bb (i, comp, coeff, j) = .ok bb := by
  simp only [assert_comparison, step, hcanon, hrecorded, if_true]


/-- Witness for `assert_comparison_idempotent` at a concrete input. -/
theorem assert_comparison_idempotent_witness :
    assert_comparison 10 bbIdem (1, cGE, 2, 2) = .ok bbIdem :=
  assert_comparison_idempotent (bbEmpty 3) bbIdem 1 cGE 2 2 10 9
    (by with_unfolding_all rfl) (by with_unfolding_all rfl)
    (by with_unfolding_all rfl)

/-! ### C5: origin projection.  Helper lemmas on the engine. -/

/-- With no stored clauses, `update_clause` is a no-op. -/
theorem uclause_nil (f : ℕ) (bb : Blackboard) (p : UKey) (h : bb.clauses = []) :
    step (f + 1) (.uclause p) bb = .ok bb := by
  obtain ⟨nt, ineq, zineq, eq, zeq, dis, zdis, cls, upd⟩ := bb
  simp only at h
  subst h
  simp [step, except_pure_eq]

/-- A successful `update_clause` with no stored clauses returns the state
unchanged, at any fuel. -/
theorem uclause_nil_ok (f : ℕ) (bb bb' : Blackboard) (p : UKey)
    (h : bb.clauses = []) (hok : step f (.uclause p) bb = .ok bb') : bb' = bb := by
  match f with
  | 0 => simp [step] at hok
  | f + 1 =>
    rw [uclause_nil f bb p h] at hok
    exact ((Except.ok.injEq _ _).mp hok).symm

/-- A successful `assert_equality` with no stored clauses only touches the
equalities table and the tracker: the zero tables are unchanged and the
clause set stays empty. -/
theorem aeq_zero_fields (f : ℕ) (bb bb' : Blackboard) (i : ℕ) (coeff : ℚ)
    (j : ℕ) (hok : step f (.aeq i coeff j) bb = .ok bb')
    (h : bb.clauses = []) :
    bb'.zero_inequalities = bb.zero_inequalities ∧
    bb'.zero_equalities = bb.zero_equalities ∧
    bb'.zero_disequalities = bb.zero_disequalities ∧ bb'.clauses = [] := by
  match f with
  | 0 => simp [step] at hok
  | f + 1 =>
    simp only [step] at hok
    have h2 : (tracker_update
        { bb with equalities := aset bb.equalities (i, j) coeff }
        (.inr (i, j))).clauses = [] := by
      simp [tracker_update, h]
    have := uclause_nil_ok f _ bb' _ h2 hok
    subst this
    simp [tracker_update, h]

theorem canonize_comp_cEQ (i : ℕ) (coeff : ℚ) (j : ℕ) (hc : ¬ coeff = 0) :
    canonize_comp (i, cEQ, coeff, j) =
      if j < i then (j, cEQ, 1 / coeff, i) else (i, cEQ, coeff, j) := by
  have h1 : comp_reverse cEQ = cEQ := by decide
  simp only [canonize_comp, hc, if_false]
  split
  · split <;> simp [h1]
  · rfl

/-- A successful `assert_comparison` of an equality with nonzero coefficient
and no stored clauses leaves the zero tables unchanged and the clause set
empty. -/
theorem acomp_eq_zero_fields (f : ℕ) (bb bb' : Blackboard) (i : ℕ)
    (coeff : ℚ) (j : ℕ) (hc : ¬ coeff = 0) (h : bb.clauses = [])
    (hok : step f (.acomp (i, cEQ, coeff, j)) bb = .ok bb') :
    bb'.zero_inequalities = bb.zero_inequalities ∧
    bb'.zero_equalities = bb.zero_equalities ∧
    bb'.zero_disequalities = bb.zero_disequalities ∧ bb'.clauses = [] := by
  match f with
  | 0 => simp [step] at hok
  | f + 1 =>
    simp only [step, canonize_comp_cEQ i coeff j hc] at hok
    by_cases hij : j < i
    · simp only [hij, if_true] at hok
      by_cases h1 : implies bb j cEQ (1 / coeff) i
      · simp only [h1, if_true] at hok
        obtain rfl := ((Except.ok.injEq _ _).mp hok).symm
        exact ⟨rfl, rfl, rfl, h⟩
      · simp only [h1, Bool.false_eq_true, if_false] at hok
        by_cases h2 : implies bb j (comp_negate cEQ) (1 / coeff) i
        · simp only [h2, if_true, raise_contradiction] at hok
          split at hok <;> simp at hok
        · have hd : ¬ (cEQ = cGE ∨ cEQ = cGT ∨ cEQ = cLE ∨ cEQ = cLT) := by decide
          have hc' : ¬ (1 / coeff) = 0 := one_div_ne_zero hc
          simp only [h2, Bool.false_eq_true, if_false, hd, if_pos rfl, hc'] at hok
          exact aeq_zero_fields f bb bb' j (1 / coeff) i hok h
    · simp only [hij, if_false] at hok
      by_cases h1 : implies bb i cEQ coeff j
      · simp only [h1, if_true] at hok
        obtain rfl := ((Except.ok.injEq _ _).mp hok).symm
        exact ⟨rfl, rfl, rfl, h⟩
      · simp only [h1, Bool.false_eq_true, if_false] at hok
        by_cases h2 : implies bb i (comp_negate cEQ) coeff j
        · simp only [h2, if_true, raise_contradiction] at hok
          split at hok <;> simp at hok
        · have hd : ¬ (cEQ = cGE ∨ cEQ = cGT ∨ cEQ = cLE ∨ cEQ = cLT) := by decide
          simp only [h2, Bool.false_eq_true, if_false, hd, if_pos rfl, hc] at hok
          exact aeq_zero_fields f bb bb' i coeff j hok h

/-- Updating the two-literal clause {t_i ≠ 0, t_j ≠ 0} against a blackboard
in which neither index is known zero keeps both literals. -/
theorem clause_update_ne (bb : Blackboard) (i j : ℕ)
    (hi : i ∉ bb.zero_equalities) (hj : j ∉ bb.zero_equalities) :
    clause_update bb ⟨[(i, cNE, 0, 0), (j, cNE, 0, 0)], false⟩ =
      ⟨[(i, cNE, 0, 0), (j, cNE, 0, 0)],
        implies bb i cNE 0 0 || implies bb j cNE 0 0⟩ := by
  have hcn : comp_negate cNE = cEQ := by decide
  have hni : implies bb i (comp_negate cNE) 0 0 = false := by
    rw [hcn]
    simp +decide [implies, impliesF, implies_zero_comparison, hi]
  have hnj : implies bb j (comp_negate cNE) 0 0 = false := by
    rw [hcn]
    simp +decide [implies, impliesF, implies_zero_comparison, hj]
  simp [clause_update, clause_update_with, hni, hnj]

/-- Asserting the clause {t_i ≠ 0, t_j ≠ 0} when neither index is known
zero succeeds and leaves every zero table unchanged (the clause is either
already satisfied, or stored with its two literals). -/
theorem aclause_ne_zero_fields (f : ℕ) (bb : Blackboard) (i j : ℕ)
    (hi : i ∉ bb.zero_equalities) (hj : j ∉ bb.zero_equalities) :
    ∃ bb', step (f + 1) (.aclause [(i, cNE, 0, 0), (j, cNE, 0, 0)]) bb = .ok bb' ∧
      bb'.zero_inequalities = bb.zero_inequalities ∧
      bb'.zero_equalities = bb.zero_equalities ∧
      bb'.zero_disequalities = bb.zero_disequalities := by
  simp only [step]
  have hmap : [(i, cNE, (0 : ℚ), 0), (j, cNE, (0 : ℚ), 0)].map canonize_comp
      = [(i, cNE, (0 : ℚ), 0), (j, cNE, (0 : ℚ), 0)] := by
    simp [canonize_comp]
  rw [hmap, clause_update_ne bb i j hi hj]
  cases hs : (implies bb i cNE 0 0 || implies bb j cNE 0 0) with
  | true => exact ⟨bb, by simp, rfl, rfl, rfl⟩
  | false =>
    refine ⟨{ bb with clauses :=
      if (⟨[(i, cNE, 0, 0), (j, cNE, 0, 0)], false⟩ : Clause) ∈ bb.clauses
      then bb.clauses
      else bb.clauses ++ [⟨[(i, cNE, 0, 0), (j, cNE, 0, 0)], false⟩] },
      ?_, rfl, rfl, rfl⟩
    simp [Clause.size]

/-- Implication form of `aclause_ne_zero_fields` for an arbitrary fuel. -/
theorem aclause_ne_zero_fields_ok (f : ℕ) (bb bb' : Blackboard) (i j : ℕ)
    (hi : i ∉ bb.zero_equalities) (hj : j ∉ bb.zero_equalities)
    (hok : step f (.aclause [(i, cNE, 0, 0), (j, cNE, 0, 0)]) bb = .ok bb') :
    bb'.zero_inequalities = bb.zero_inequalities ∧
    bb'.zero_equalities = bb.zero_equalities ∧
    bb'.zero_disequalities = bb.zero_disequalities := by
  match f with
  | 0 => simp [step] at hok
  | f + 1 =>
    obtain ⟨bb'', heq, h1, h2, h3⟩ := aclause_ne_zero_fields f bb i j hi hj
    rw [heq] at hok
    obtain rfl := (Except.ok.injEq _ _).mp hok
    exact ⟨h1, h2, h3⟩

end PolyaBB

namespace PolyaBB

theorem tracker_ineq (bb : Blackboard) (k : UKey) :
    (tracker_update bb k).inequalities = bb.inequalities := rfl

theorem tracker_zi (bb : Blackboard) (k : UKey) :
    (tracker_update bb k).zero_inequalities = bb.zero_inequalities := rfl

theorem except_bind_error {ε α β : Type} (e : ε) (f : α → Except ε β) :
    ((Except.error e : Except ε α) >>= f) = .error e := rfl

theorem aineq_store_fields (bb : Blackboard) (i j : ℕ) (ncs : List Halfplane) :
    (aineq_store bb i j ncs).zero_inequalities = bb.zero_inequalities ∧
    (aineq_store bb i j ncs).zero_equalities = bb.zero_equalities ∧
    (aineq_store bb i j ncs).zero_disequalities = bb.zero_disequalities ∧
    (aineq_store bb i j ncs).clauses = bb.clauses := by
  unfold aineq_store
  refine ⟨?_, ?_, ?_, ?_⟩ <;> (dsimp only; split) <;>
    first
      | rfl
      | (split <;> rfl)

theorem halfplane_strong_weaken (comp : Comp) (coeff : ℚ)
    (h : (halfplane_of_comp comp coeff).strong = true) :
    comp_weaken comp = if comp = cGT then cGE else cLE := by
  unfold halfplane_of_comp at h
  split at h
  · simp only [decide_eq_true_eq] at h
    subst h
    decide
  · simp only [decide_eq_true_eq] at h
    subst h
    decide

theorem proceed_zero_fields (f : ℕ) (bbt bb' : Blackboard) (i j : ℕ)
    (ncs : List Halfplane)
    (hok : step f (.uclause (.inr (i, j))) (aineq_store bbt i j ncs) = .ok bb')
    (hcl : bbt.clauses = []) :
    bb'.zero_inequalities = bbt.zero_inequalities ∧
    bb'.zero_equalities = bbt.zero_equalities ∧
    bb'.zero_disequalities = bbt.zero_disequalities := by
  have hst := aineq_store_fields bbt i j ncs
  have hcl2 : (aineq_store bbt i j ncs).clauses = [] := by rw [hst.2.2.2]; exact hcl
  obtain rfl := uclause_nil_ok f _ bb' _ hcl2 hok
  exact ⟨hst.1, hst.2.1, hst.2.2.1⟩

theorem aineq_zero_fields (f : ℕ) (bb bb' : Blackboard) (i : ℕ) (comp : Comp)
    (coeff : ℚ) (j : ℕ) (hi0 : ¬ i = 0) (hc : ¬ coeff = 0)
    (hcl : bb.clauses = []) (hize : i ∉ bb.zero_equalities)
    (hjze : j ∉ bb.zero_equalities)
    (hok : step f (.aineq i comp coeff j) bb = .ok bb') :
    bb'.zero_inequalities = bb.zero_inequalities ∧
    bb'.zero_equalities = bb.zero_equalities ∧
    bb'.zero_disequalities = bb.zero_disequalities := by
  match f with
  | 0 => simp [step] at hok
  | f + 1 =>
    simp only [step] at hok
    simp only [hi0, false_and, if_false, except_bind_ok] at hok
    cases hsg : (halfplane_of_comp comp coeff).strong with
    | false =>
      simp only [hsg, Bool.false_and, Bool.false_eq_true, if_false] at hok
      split at hok
      · split at hok
        · obtain rfl := ((Except.ok.injEq _ _).mp hok).symm
          exact ⟨rfl, rfl, rfl⟩
        · split at hok
          · obtain ⟨h1, h2, h3, _⟩ := acomp_eq_zero_fields f
              (tracker_update bb (Sum.inr (i, j))) bb' i coeff j hc hcl hok
            exact ⟨h1, h2, h3⟩
          · simp at hok
      · split at hok
        · exact proceed_zero_fields f (tracker_update bb (Sum.inr (i, j))) bb'
            i j _ hok hcl
        · split at hok
          · exact proceed_zero_fields f (tracker_update bb (Sum.inr (i, j))) bb'
              i j _ hok hcl
          · split at hok
            · exact proceed_zero_fields f (tracker_update bb (Sum.inr (i, j))) bb'
                i j _ hok hcl
            · simp at hok
        · split at hok <;> split at hok
          · obtain ⟨h1, h2, h3, _⟩ := aeq_zero_fields f _ bb' i coeff j hok hcl
            exact ⟨h1, h2, h3⟩
          · exact proceed_zero_fields f (tracker_update bb (Sum.inr (i, j))) bb'
              i j _ hok hcl
          · obtain ⟨h1, h2, h3, _⟩ := aeq_zero_fields f _ bb' i coeff j hok hcl
            exact ⟨h1, h2, h3⟩
          · exact proceed_zero_fields f (tracker_update bb (Sum.inr (i, j))) bb'
              i j _ hok hcl
    | true =>
      simp only [hsg, Bool.true_and, Bool.not_true, Bool.false_and,
        Bool.false_eq_true, if_false] at hok
      rw [show (if comp = cGT then cGE else cLE) = comp_weaken comp from
        (halfplane_strong_weaken comp coeff hsg).symm] at hok
      cases hC : implies (tracker_update bb (Sum.inr (i, j))) i
          (comp_weaken comp) coeff j with
      | true =>
        simp only [hC, if_true] at hok
        split at hok
        · split at hok
          · split at hok
            · obtain rfl := ((Except.ok.injEq _ _).mp hok).symm
              exact ⟨rfl, rfl, rfl⟩
            · obtain rfl := ((Except.ok.injEq _ _).mp hok).symm
              exact ⟨rfl, rfl, rfl⟩
          · simp at hok
        · exact aclause_ne_zero_fields_ok f (tracker_update bb (Sum.inr (i, j)))
            bb' i j hize hjze hok
      | false =>
        simp only [hC, Bool.false_eq_true, if_false] at hok
        split at hok
        · split at hok
          · split at hok
            · obtain rfl := ((Except.ok.injEq _ _).mp hok).symm
              exact ⟨rfl, rfl, rfl⟩
            · obtain rfl := ((Except.ok.injEq _ _).mp hok).symm
              exact ⟨rfl, rfl, rfl⟩
          · simp at hok
        · split at hok
          · exact proceed_zero_fields f (tracker_update bb (Sum.inr (i, j))) bb'
              i j _ hok hcl
          · split at hok
            · exact proceed_zero_fields f (tracker_update bb (Sum.inr (i, j)))
                bb' i j _ hok hcl
            · split at hok
              · exact proceed_zero_fields f (tracker_update bb (Sum.inr (i, j)))
                  bb' i j _ hok hcl
              · simp at hok
          · rename_i o0 o1 tail hoc
            by_cases hnc : (o0.compare_hp (halfplane_of_comp comp coeff) > 0
              ∧ o1.compare_hp (halfplane_of_comp comp coeff) > 0)
            · rw [if_pos hnc] at hok
              split at hok
              · obtain ⟨h1, h2, h3, _⟩ :=
                  aeq_zero_fields f _ bb' i coeff j hok hcl
                exact ⟨h1, h2, h3⟩
              · exact proceed_zero_fields f (tracker_update bb (Sum.inr (i, j)))
                  bb' i j _ hok hcl
            · rw [if_neg hnc] at hok
              split at hok
              · obtain ⟨h1, h2, h3, _⟩ :=
                  aeq_zero_fields f _ bb' i coeff j hok hcl
                exact ⟨h1, h2, h3⟩
              · exact proceed_zero_fields f (tracker_update bb (Sum.inr (i, j)))
                  bb' i j _ hok hcl

theorem zi_pair_step_shape (i : ℕ) (comp : Comp) (bb : Blackboard)
    (ems : List (ℕ × Comp)) (k : ℕ) :
    ∃ I U, (zi_pair_step i comp (bb, ems) k).1
      = { bb with inequalities := I, updates := U } := by
  unfold zi_pair_step
  split
  · exact ⟨_, _, rfl⟩
  · exact ⟨_, _, rfl⟩

theorem zi_pair_step_fields (i : ℕ) (comp : Comp) (bb : Blackboard)
    (ems : List (ℕ × Comp)) (k : ℕ) :
    (zi_pair_step i comp (bb, ems) k).1.zero_inequalities = bb.zero_inequalities ∧
    (zi_pair_step i comp (bb, ems) k).1.zero_equalities = bb.zero_equalities ∧
    (zi_pair_step i comp (bb, ems) k).1.zero_disequalities = bb.zero_disequalities ∧
    (zi_pair_step i comp (bb, ems) k).1.clauses = bb.clauses ∧
    (zi_pair_step i comp (bb, ems) k).1.num_terms = bb.num_terms ∧
    (zi_pair_step i comp (bb, ems) k).1.equalities = bb.equalities ∧
    (zi_pair_step i comp (bb, ems) k).1.disequalities = bb.disequalities := by
  obtain ⟨I, U, h⟩ := zi_pair_step_shape i comp bb ems k
  rw [h]
  exact ⟨rfl, rfl, rfl, rfl, rfl, rfl, rfl⟩

theorem zi_pair_step_fresh (i : ℕ) (comp : Comp) (bb : Blackboard)
    (ems : List (ℕ × Comp)) (k : ℕ)
    (h : alookup bb.inequalities (pkey i k) = none) :
    (zi_pair_step i comp (bb, ems) k).2 = ems ∧
    ∀ p, ¬ p = pkey i k →
      alookup (zi_pair_step i comp (bb, ems) k).1.inequalities p
        = alookup bb.inequalities p := by
  have hs : zi_strengthens i comp bb k = false := by
    simp [zi_strengthens, h]
  have hn : zi_new_comps i comp bb k = [zi_new_comp i comp k] := by
    simp [zi_new_comps, h]
  unfold zi_pair_step
  dsimp only
  simp only [hs, Bool.false_eq_true, if_false]
  constructor
  · simp [zi_emit, hn]
  · intro p hp
    rw [tracker_ineq]
    exact alookup_aset_ne _ _ _ _ (fun hq => hp hq.symm)

theorem pkey_inj (i k k' : ℕ) (_hk : ¬ k = i) (_hk' : ¬ k' = i)
    (h : pkey i k = pkey i k') : k = k' := by
  unfold pkey at h
  split at h <;> split at h <;>
    simp only [Prod.mk.injEq] at h <;> omega

theorem zi_fold_fields (i : ℕ) (comp : Comp) :
    ∀ (ks : List ℕ) (bb : Blackboard) (ems : List (ℕ × Comp)),
    (∀ k ∈ ks, alookup bb.inequalities (pkey i k) = none) →
    ks.Nodup → (∀ k ∈ ks, ¬ k = i) →
    (ks.foldl (zi_pair_step i comp) (bb, ems)).1.zero_inequalities
        = bb.zero_inequalities ∧
    (ks.foldl (zi_pair_step i comp) (bb, ems)).1.zero_equalities
        = bb.zero_equalities ∧
    (ks.foldl (zi_pair_step i comp) (bb, ems)).1.zero_disequalities
        = bb.zero_disequalities ∧
    (ks.foldl (zi_pair_step i comp) (bb, ems)).1.clauses = bb.clauses ∧
    (ks.foldl (zi_pair_step i comp) (bb, ems)).1.equalities = bb.equalities ∧
    (ks.foldl (zi_pair_step i comp) (bb, ems)).1.disequalities = bb.disequalities ∧
    (ks.foldl (zi_pair_step i comp) (bb, ems)).2 = ems := by
  intro ks
  induction ks with
  | nil => intro bb ems _ _ _; exact ⟨rfl, rfl, rfl, rfl, rfl, rfl, rfl⟩
  | cons k ks ih =>
    intro bb ems hnone hnd hne
    have hk : alookup bb.inequalities (pkey i k) = none := hnone k (by simp)
    obtain ⟨hems, hlook⟩ := zi_pair_step_fresh i comp bb ems k hk
    have hflds := zi_pair_step_fields i comp bb ems k
    rw [List.foldl_cons]
    rcases hzs : zi_pair_step i comp (bb, ems) k with ⟨b1, e1⟩
    rw [hzs] at hems hlook hflds
    obtain ⟨hf1, hf2, hf3, hf4, hf5, hf6, hf7⟩ := hflds
    have hnone' : ∀ k' ∈ ks, alookup b1.inequalities (pkey i k') = none := by
      intro k' hk'
      rw [hlook (pkey i k') (fun hq => ?_)]
      · exact hnone k' (by simp [hk'])
      · have : k' = k := pkey_inj i k' k (hne k' (by simp [hk'])) (hne k (by simp)) hq
        rw [this] at hk'
        exact (List.nodup_cons.mp hnd).1 hk'
    have hnd' : ks.Nodup := (List.nodup_cons.mp hnd).2
    have hne' : ∀ k' ∈ ks, ¬ k' = i := fun k' hk' => hne k' (by simp [hk'])
    obtain ⟨g1, g2, g3, g4, g5, g6, g7⟩ := ih b1 e1 hnone' hnd' hne'
    subst hems
    exact ⟨g1.trans hf1, g2.trans hf2, g3.trans hf3, g4.trans hf4,
      g5.trans hf6, g6.trans hf7, g7⟩

theorem zi_fanout_fields (i : ℕ) (comp : Comp) (bb : Blackboard)
    (hineq : bb.inequalities = []) :
    (zi_fanout i comp bb).1.zero_inequalities = bb.zero_inequalities ∧
    (zi_fanout i comp bb).1.zero_equalities = bb.zero_equalities ∧
    (zi_fanout i comp bb).1.zero_disequalities = bb.zero_disequalities ∧
    (zi_fanout i comp bb).1.clauses = bb.clauses ∧
    (zi_fanout i comp bb).1.equalities = bb.equalities ∧
    (zi_fanout i comp bb).1.disequalities = bb.disequalities ∧
    (zi_fanout i comp bb).2 = [] := by
  unfold zi_fanout
  refine zi_fold_fields i comp _ bb [] ?_ ?_ ?_
  · intro k _hk
    rw [hineq]
    rfl
  · exact (List.nodup_range _).filter _
  · intro k hk
    have := List.of_mem_filter hk
    simpa using this

theorem azineq_zi (f : ℕ) (bb bb' : Blackboard) (jj : ℕ) (c : Comp)
    (hzd : jj ∉ bb.zero_disequalities)
    (hzi : alookup bb.zero_inequalities jj = none)
    (hineq : bb.inequalities = [])
    (hcl : bb.clauses = [])
    (hok : step f (.azineq jj c) bb = .ok bb') :
    bb'.zero_inequalities = aset bb.zero_inequalities jj c ∧
    bb'.zero_equalities = bb.zero_equalities ∧
    bb'.zero_disequalities = bb.zero_disequalities ∧
    bb'.clauses = [] := by
  match f with
  | 0 => simp [step] at hok
  | f + 1 =>
    simp only [step] at hok
    rw [if_neg hzd] at hok
    simp only [tracker_zi, hzi, Bool.false_eq_true, if_false] at hok
    obtain ⟨k1, k2, k3, k4, k5, k6, k7⟩ :=
      zi_fanout_fields jj c
        { tracker_update bb (Sum.inl jj) with
            zero_inequalities := aset bb.zero_inequalities jj c } hineq
    rw [k7] at hok
    simp only [List.foldlM_nil, except_pure_eq, except_bind_ok] at hok
    have hcl1 : (zi_fanout jj c
        { tracker_update bb (Sum.inl jj) with
            zero_inequalities := aset bb.zero_inequalities jj c }).1.clauses
        = [] := k4.trans hcl
    obtain rfl := uclause_nil_ok f _ bb' _ hcl1 hok
    exact ⟨k1.trans rfl, k2.trans rfl, k3.trans rfl, hcl1⟩

theorem aineq_origin (f : ℕ) (bb bb' : Blackboard) (comp : Comp)
    (coeff : ℚ) (j : ℕ)
    (hcomp : comp = cLE ∨ comp = cLT)
    (hz0 : 0 ∉ bb.zero_equalities) (hzj : j ∉ bb.zero_equalities)
    (hzd : j ∉ bb.zero_disequalities)
    (hzi : alookup bb.zero_inequalities j = none)
    (hineq : bb.inequalities = []) (hcl : bb.clauses = [])
    (hok : step f (.aineq 0 comp coeff j) bb = .ok bb') :
    (0 < coeff → alookup bb'.zero_inequalities j = some cGT) ∧
    (coeff < 0 → alookup bb'.zero_inequalities j = some cLT) := by
  have hcomp_ne : ¬ comp = cGT := by rcases hcomp with rfl | rfl <;> decide
  match f with
  | 0 => simp [step] at hok
  | f + 1 =>
    simp only [step] at hok
    rw [if_pos ⟨trivial, hcomp⟩] at hok
    constructor
    · intro hpos
      rw [if_pos hpos] at hok
      cases hz : step f (.azineq j cGT) (tracker_update bb (Sum.inr (0, j))) with
      | error e =>
        rw [hz, except_bind_error] at hok
        exact absurd hok (by simp)
      | ok bb1 =>
        rw [hz, except_bind_ok] at hok
        obtain ⟨h1, h2, h3, h4⟩ :=
          azineq_zi f (tracker_update bb (Sum.inr (0, j))) bb1 j cGT
            hzd hzi hineq hcl hz
        have hoc : alookup (tracker_update bb (Sum.inr (0, j))).inequalities
            ((0 : ℕ), j) = none := by
          rw [tracker_ineq, hineq]
          rfl
        rw [hoc] at hok
        simp only [Option.getD_none, List.find?_nil] at hok
        rw [if_neg hcomp_ne] at hok
        cases hS : (halfplane_of_comp comp coeff).strong with
        | false =>
          simp only [hS, Bool.false_and, Bool.false_eq_true, if_false] at hok
          have hst := aineq_store_fields bb1 0 j [halfplane_of_comp comp coeff]
          have hclS : (aineq_store bb1 0 j
              [halfplane_of_comp comp coeff]).clauses = [] := hst.2.2.2.trans h4
          obtain rfl := uclause_nil_ok f _ bb' _ hclS hok
          rw [hst.1, h1]
          exact alookup_aset_self _ _ _
        | true =>
          simp only [hS, Bool.true_and] at hok
          cases hI : implies bb1 0 cLE coeff j with
          | true =>
            simp only [hI, if_true] at hok
            obtain ⟨g1, g2, g3⟩ := aclause_ne_zero_fields_ok f bb1 bb' 0 j
              (by rw [h2]; exact hz0) (by rw [h2]; exact hzj) hok
            rw [g1, h1]
            exact alookup_aset_self _ _ _
          | false =>
            simp only [hI, Bool.false_eq_true, if_false] at hok
            have hst := aineq_store_fields bb1 0 j [halfplane_of_comp comp coeff]
            have hclS : (aineq_store bb1 0 j
                [halfplane_of_comp comp coeff]).clauses = [] := hst.2.2.2.trans h4
            obtain rfl := uclause_nil_ok f _ bb' _ hclS hok
            rw [hst.1, h1]
            exact alookup_aset_self _ _ _
    · intro hneg
      rw [if_neg (lt_asymm hneg), if_pos hneg] at hok
      cases hz : step f (.azineq j cLT) (tracker_update bb (Sum.inr (0, j))) with
      | error e =>
        rw [hz, except_bind_error] at hok
        exact absurd hok (by simp)
      | ok bb1 =>
        rw [hz, except_bind_ok] at hok
        obtain ⟨h1, h2, h3, h4⟩ :=
          azineq_zi f (tracker_update bb (Sum.inr (0, j))) bb1 j cLT
            hzd hzi hineq hcl hz
        have hoc : alookup (tracker_update bb (Sum.inr (0, j))).inequalities
            ((0 : ℕ), j) = none := by
          rw [tracker_ineq, hineq]
          rfl
        rw [hoc] at hok
        simp only [Option.getD_none, List.find?_nil] at hok
        rw [if_neg hcomp_ne] at hok
        cases hS : (halfplane_of_comp comp coeff).strong with
        | false =>
          simp only [hS, Bool.false_and, Bool.false_eq_true, if_false] at hok
          have hst := aineq_store_fields bb1 0 j [halfplane_of_comp comp coeff]
          have hclS : (aineq_store bb1 0 j
              [halfplane_of_comp comp coeff]).clauses = [] := hst.2.2.2.trans h4
          obtain rfl := uclause_nil_ok f _ bb' _ hclS hok
          rw [hst.1, h1]
          exact alookup_aset_self _ _ _
        | true =>
          simp only [hS, Bool.true_and] at hok
          cases hI : implies bb1 0 cLE coeff j with
          | true =>
            simp only [hI, if_true] at hok
            obtain ⟨g1, g2, g3⟩ := aclause_ne_zero_fields_ok f bb1 bb' 0 j
              (by rw [h2]; exact hz0) (by rw [h2]; exact hzj) hok
            rw [g1, h1]
            exact alookup_aset_self _ _ _
          | false =>
            simp only [hI, Bool.false_eq_true, if_false] at hok
            have hst := aineq_store_fields bb1 0 j [halfplane_of_comp comp coeff]
            have hclS : (aineq_store bb1 0 j
                [halfplane_of_comp comp coeff]).clauses = [] := hst.2.2.2.trans h4
            obtain rfl := uclause_nil_ok f _ bb' _ hclS hok
            rw [hst.1, h1]
            exact alookup_aset_self _ _ _

end PolyaBB

namespace PolyaBB



/-- C5 counterexample: the claim says the origin branch of
`assert_inequality` (lines 505-509) is the only place where the assertion
engine automatically projects a pair fact onto a zero fact.  On `bbSandwich`
the pair (1, 2) stores two half-planes and no zero fact on t_2 is known;
`assert_zero_inequality(1, GT)` then records the zero fact t_2 > 0, derived
at lines 654-663 from the two stored pair half-planes sandwiching the
t_2-axis — a second pair-to-zero projection site. -/
theorem assert_zero_inequality_projects_pair :
    bbSandwich.zero_inequalities = [] ∧
    (assert_zero_inequality 10 bbSandwich 1 cGT).toOption.map
      (fun b => alookup b.zero_inequalities 2) = some (some cGT) :=
  ⟨by with_unfolding_all rfl, by with_unfolding_all rfl⟩

/-- C5 (amended): (1) the origin projection of `assert_inequality`
(lines 505-509): a successful `assert_inequality(0, comp, coeff, j)` with
comp in {LE, LT}, on a blackboard with no stored pair entries or clauses and
no zero fact on j, records exactly the zero-inequality t_j > 0 when
coeff > 0 and t_j < 0 when coeff < 0; (2) within `assert_inequality` this is
the only zero projection: for i different from 0 (with nonzero coefficient,
no stored clauses, and i, j not known zero) a successful call leaves all
three zero tables unchanged.  (The original claim's "only place in the
assertion engine" is refuted by `assert_zero_inequality`'s sandwich
emission.) -/
theorem assert_inequality_origin_projection :
    (∀ (f : ℕ) (bb bb' : Blackboard) (comp : Comp) (coeff : ℚ) (j : ℕ),
      (comp = cLE ∨ comp = cLT) →
      0 ∉ bb.zero_equalities → j ∉ bb.zero_equalities →
      j ∉ bb.zero_disequalities →
      alookup bb.zero_inequalities j = none →
      bb.inequalities = [] → bb.clauses = [] →
      step f (.aineq 0 comp coeff j) bb = .ok bb' →
      (0 < coeff → alookup bb'.zero_inequalities j = some cGT) ∧
      (coeff < 0 → alookup bb'.zero_inequalities j = some cLT)) ∧
    (∀ (f : ℕ) (bb bb' : Blackboard) (i : ℕ) (comp : Comp) (coeff : ℚ) (j : ℕ),
      ¬ i = 0 → ¬ coeff = 0 → bb.clauses = [] →
      i ∉ bb.zero_equalities → j ∉ bb.zero_equalities →
      step f (.aineq i comp coeff j) bb = .ok bb' →
      bb'.zero_inequalities = bb.zero_inequalities ∧
      bb'.zero_equalities = bb.zero_equalities ∧
      bb'.zero_disequalities = bb.zero_disequalities) :=
  ⟨fun f bb bb' comp coeff j hcomp hz0 hzj hzd hzi hineq hcl hok =>
    aineq_origin f bb bb' comp coeff j hcomp hz0 hzj hzd hzi hineq hcl hok,
   fun f bb bb' i comp coeff j hi0 hc hcl hize hjze hok =>
    aineq_zero_fields f bb bb' i comp coeff j hi0 hc hcl hize hjze hok⟩

/-- Witness for `assert_inequality_origin_projection` at concrete inputs. -/
theorem assert_inequality_origin_projection_witness :
    alookup bbOP.zero_inequalities 1 = some cGT ∧
    bbPB.zero_inequalities = (bbEmpty 3).zero_inequalities :=
  ⟨(assert_inequality_origin_projection.1 6 (bbEmpty 2) bbOP cLE 1 1
      (Or.inl rfl) (by simp [bbEmpty]) (by simp [bbEmpty]) (by simp [bbEmpty])
      rfl rfl rfl (by with_unfolding_all rfl)).1 one_pos,
   (assert_inequality_origin_projection.2 5 (bbEmpty 3) bbPB 1 cGE 2 2
      (by decide) two_ne_zero rfl (by simp [bbEmpty]) (by simp [bbEmpty])
      (by with_unfolding_all rfl)).1⟩

end PolyaBB
